import Mathlib

/-!
# carburanti: a shallow embedding of `carburanti.go` and `types.go`

The two retrieval functions `GetRecords` and `GetStations` are modelled together with the
parts of the Go standard library they call (`errors.Is`, `strconv.ParseInt`,
`strconv.ParseBool`, the syntax of `strconv.ParseFloat`, `time.Parse`,
`bufio.Reader.ReadLine`, the final field-count check of `csv.Reader.Read`).

Conventions.
* A Go `string` is a Lean `String`; byte-level library routines walk its character list
  (a non-ASCII character is a run of bytes `≥ 0x80`, none of which is a digit, a sign or a
  separator, so the two views agree on every branch taken here).
* A Go `(value, error)` result is a pair whose second component is `Option GoError`
  (`none` is the `nil` error); a pointer result is an `Option` (`none` is `nil`).
* A run-time panic (index out of range) is an explicit outcome.
* `log.Printf` appends to an explicit list of log entries.
* The width `bits` of Go's `int` and the function `ParseFloat` are parameters of
  `parseRecord`; `ParseFloat64` is the model of `strconv.ParseFloat(·, 64)` whose special
  names and number syntax are exact and whose numeric conversion is a parameter.
-/

deriving instance DecidableEq for Except

namespace Carburanti

/-! ## Go error values -/

/-- Go error values that occur in the program. Sentinel errors are package-level variables;
a `*csv.ParseError` is identified by the heap address it was allocated at, because Go
compares pointer values by address. -/
inductive GoError where
  /-- The sentinel `io.EOF`. -/
  | EOF
  /-- The sentinel `csv.ErrFieldCount`, text "wrong number of fields". -/
  | ErrFieldCount
  /-- The sentinel `csv.ErrBareQuote`. -/
  | ErrBareQuote
  /-- The sentinel `csv.ErrQuote`. -/
  | ErrQuote
  /-- The sentinel `strconv.ErrSyntax`. -/
  | ErrSyntax
  /-- The sentinel `strconv.ErrRange`. -/
  | ErrRange
  /-- The sentinel `bufio.ErrBufferFull`. -/
  | ErrBufferFull
  /-- A `*csv.ParseError` allocated at `addr`; `Unwrap` gives `Err`. -/
  | ParseError (addr : Nat) (StartLine Line Column : Nat) (Err : GoError)
  /-- A `*strconv.NumError`; `Unwrap` gives `Err`. -/
  | NumError (Func Num : String) (Err : GoError)
  /-- A `*time.ParseError` (no `Unwrap`). -/
  | TimeParseError (LayoutElem ValueElem Message : String)
  /-- Any non-EOF error surfaced by the underlying byte stream (no `Unwrap`, no `Is`). -/
  | streamError (msg : String)
  /-- The result of `fmt.Errorf` without a wrapping verb. -/
  | errorString (msg : String)
  /-- The result of `fmt.Errorf(prefix + ": %w", err)`; `Unwrap` gives `err`. -/
  | wrapError (pfx : String) (err : GoError)
  deriving DecidableEq, Repr

namespace GoError

/-- The method `Unwrap() error`, where the dynamic type has one. -/
def Unwrap : GoError → Option GoError
  | ParseError _ _ _ _ e => some e
  | NumError _ _ e => some e
  | wrapError _ e => some e
  | _ => none

/-- The method `Error() string`. -/
def Error : GoError → String
  | EOF => "EOF"
  | ErrFieldCount => "wrong number of fields"
  | ErrBareQuote => "bare \" in non-quoted-field"
  | ErrQuote => "extraneous or missing \" in quoted-field"
  | ErrSyntax => "invalid syntax"
  | ErrRange => "value out of range"
  | ErrBufferFull => "bufio: buffer full"
  | ParseError _ s l c e =>
      if e = ErrFieldCount then "record on line " ++ toString l ++ ": " ++ e.Error
      else if s ≠ l then
        "record on line " ++ toString s ++ "; parse error on line " ++ toString l ++
          ", column " ++ toString c ++ ": " ++ e.Error
      else "parse error on line " ++ toString l ++ ", column " ++ toString c ++ ": " ++ e.Error
  | NumError f n e => "strconv." ++ f ++ ": parsing " ++ n.quote ++ ": " ++ e.Error
  | TimeParseError _ v m => "parsing time " ++ v.quote ++ m
  | streamError m => m
  | errorString m => m
  | wrapError p e => p ++ e.Error

/-- The call `errors.Is(err, target)` for a `target` that is the `*csv.ParseError` at address
`target`. `errors.Is` walks the `Unwrap` chain of `err` and compares each link with
`target` by `==`; no error type of the program has an `Is` method. -/
def errorsIs : GoError → Nat → Bool
  | ParseError a _ _ _ e, target => a == target || errorsIs e target
  | NumError _ _ e, target => errorsIs e target
  | wrapError _ e, target => errorsIs e target
  | _, _ => false

/-- The chain of errors reached from `err` by repeated `Unwrap`, `err` first. -/
def chain : GoError → List GoError
  | ParseError a s l c e => ParseError a s l c e :: chain e
  | NumError f n e => NumError f n e :: chain e
  | wrapError p e => wrapError p e :: chain e
  | e => [e]

end GoError

/-- The call `strings.Contains(s, substr)`. -/
def stringsContains (s substr : String) : Bool :=
  s.data.tails.any (fun t => substr.data.isPrefixOf t)

/-! ## `strconv` -/

/-- The digit loop of `strconv.ParseUint(s, 10, 64)`: `cutoff = maxUint64/10 + 1`,
`maxVal = 2^64 - 1`. A byte that is not a decimal digit is a syntax error (a letter yields a
digit value `≥ 10 = base`, any other byte reaches the `default` branch). -/
def parseUintLoop : List Char → Nat → Except GoError Nat
  | [], n => .ok n
  | c :: cs, n =>
    if c.isDigit then
      let d := c.toNat - 48
      if n ≥ (2 ^ 64 - 1) / 10 + 1 then .error .ErrRange
      else
        let n10 := n * 10
        let n1 := (n10 + d) % 2 ^ 64
        if n1 < n10 ∨ n1 > 2 ^ 64 - 1 then .error .ErrRange
        else parseUintLoop cs n1
    else .error .ErrSyntax

/-- The call `strconv.ParseUint(s, 10, 64)`. -/
def ParseUint (s : List Char) : Except GoError Nat :=
  match s with
  | [] => .error .ErrSyntax
  | _ => parseUintLoop s 0

/-- The call `strconv.ParseInt(s, 10, 64)`; the error is the `*NumError` Go returns. -/
def ParseInt (s : String) : Except GoError Int :=
  match s.data with
  | [] => .error (.NumError "ParseInt" s .ErrSyntax)
  | c :: cs =>
    let neg := c == '-'
    let body := if c == '+' ∨ c == '-' then cs else c :: cs
    match ParseUint body with
    | .error e => .error (.NumError "ParseInt" s e)
    | .ok un =>
      if ¬ neg ∧ un ≥ 2 ^ 63 then .error (.NumError "ParseInt" s .ErrRange)
      else if neg ∧ un > 2 ^ 63 then .error (.NumError "ParseInt" s .ErrRange)
      else .ok (if neg then - (un : Int) else (un : Int))

/-- The call `strconv.ParseBool(str)`. -/
def ParseBool (str : String) : Except GoError Bool :=
  if str ∈ ["1", "t", "T", "true", "TRUE", "True"] then .ok true
  else if str ∈ ["0", "f", "F", "false", "FALSE", "False"] then .ok false
  else .error (.NumError "ParseBool" str .ErrSyntax)

/-- The conversion `int(x)` of an `int64` on a target whose `int` has `bits` bits
(two's-complement truncation; the identity when `bits = 64`). -/
def toInt (bits : Nat) (x : Int) : Int :=
  (x + 2 ^ (bits - 1)) % 2 ^ bits - 2 ^ (bits - 1)

/-! ## `strconv.ParseFloat` -/

/-- A `float64` as far as the parser's control flow tells values apart: the special values
that `ParseFloat` produces from their names, and the result `x` of the decimal (or
hexadecimal) to binary conversion, whose arithmetic is not modelled (`F` stands for it). -/
inductive Float64 (F : Type) where
  /-- The value `math.NaN()`. -/
  | NaN
  /-- The value `math.Inf(sign)`. -/
  | Inf (sign : Int)
  /-- A value produced by the numeric conversion. -/
  | number (x : F)
  deriving DecidableEq, Repr

/-- The helper `commonPrefixLenIgnoreCase(s, pfx)` of package `strconv`; `pfx` is lower
case. -/
def commonPrefixLenIgnoreCase : List Char → List Char → Nat
  | c :: s, p :: pfx => if c.toLower = p then 1 + commonPrefixLenIgnoreCase s pfx else 0
  | _, _ => 0

/-- The helper `special(s)` of package `strconv`: the value and the length of a leading
`inf`, `infinity` (possibly signed) or `nan`, letter case ignored. -/
def special {F : Type} (s : List Char) : Option (Float64 F × Nat) :=
  match s with
  | [] => none
  | c :: t =>
    if c = '+' ∨ c = '-' then
      let n := commonPrefixLenIgnoreCase t "infinity".data
      let n3 := if 3 < n ∧ n < 8 then 3 else n
      if n3 = 3 ∨ n3 = 8 then some (.Inf (if c = '-' then -1 else 1), 1 + n3) else none
    else if c = 'i' ∨ c = 'I' then
      let n := commonPrefixLenIgnoreCase s "infinity".data
      let n3 := if 3 < n ∧ n < 8 then 3 else n
      if n3 = 3 ∨ n3 = 8 then some (.Inf 1, n3) else none
    else if c = 'n' ∨ c = 'N' then
      if commonPrefixLenIgnoreCase s "nan".data = 3 then some (.NaN, 3) else none
    else none

/-- A byte `c` with `'a' <= lower(c) && lower(c) <= 'f'`. -/
def isHexLetter (c : Char) : Bool :=
  ('a' ≤ c ∧ c ≤ 'f') ∨ ('A' ≤ c ∧ c ≤ 'F')

/-- The mantissa loop of `readFloat`: digits, underscores and at most one period (and the
letters `a` to `f` in a hexadecimal literal). Returns whether a digit was seen, whether an
underscore was seen, and the text left. -/
def readMantissa (hex : Bool) : List Char → Bool → Bool → Bool → Bool × Bool × List Char
  | [], _, sawdigits, underscores => (sawdigits, underscores, [])
  | c :: s, sawdot, sawdigits, underscores =>
    if c = '_' then readMantissa hex s sawdot sawdigits true
    else if c = '.' then
      if sawdot then (sawdigits, underscores, c :: s)
      else readMantissa hex s true sawdigits underscores
    else if c.isDigit then readMantissa hex s sawdot true underscores
    else if hex ∧ isHexLetter c then readMantissa hex s sawdot true underscores
    else (sawdigits, underscores, c :: s)

/-- The exponent digits loop of `readFloat`: digits and underscores. Returns whether an
underscore was seen and the text left. -/
def readExpDigits : List Char → Bool → Bool × List Char
  | [], underscores => (underscores, [])
  | c :: s, underscores =>
    if c = '_' then readExpDigits s true
    else if c.isDigit then readExpDigits s underscores
    else (underscores, c :: s)

/-- The number proper of `underscoreOK`: `saw` is `0` after a digit or base prefix, `1`
after an underscore, `2` after anything else, `3` at the beginning. -/
def underscoreLoop (hex : Bool) : List Char → Nat → Bool
  | [], saw => saw ≠ 1
  | c :: s, saw =>
    if c.isDigit ∨ (hex ∧ isHexLetter c) then underscoreLoop hex s 0
    else if c = '_' then (if saw ≠ 0 then false else underscoreLoop hex s 1)
    else if saw = 1 then false
    else underscoreLoop hex s 2

/-- The helper `underscoreOK(s)` of package `strconv`: underscores only between digits or
between a base prefix and a digit. -/
def underscoreOK (s : List Char) : Bool :=
  let s1 := match s with
    | c :: t => if c = '-' ∨ c = '+' then t else s
    | [] => s
  match s1 with
  | c0 :: c1 :: t =>
    if c0 = '0' ∧ (c1 = 'b' ∨ c1 = 'B' ∨ c1 = 'o' ∨ c1 = 'O' ∨ c1 = 'x' ∨ c1 = 'X') then
      underscoreLoop (c1 = 'x' ∨ c1 = 'X') t 0
    else underscoreLoop false s1 3
  | _ => underscoreLoop false s1 3

/-- The syntax check of `readFloat(s)`: `none` when the result `ok` is false, otherwise the
text left after the number. Optional sign, optional `0x`, mantissa, optional exponent
(`e`, or `p` which a hexadecimal literal must have), underscores checked last. -/
def readFloat (s : List Char) : Option (List Char) :=
  match s with
  | [] => none
  | c :: t =>
    let s1 := if c = '+' ∨ c = '-' then t else s
    let hex : Bool := match s1 with
      | c0 :: c1 :: _ :: _ => c0 = '0' ∧ (c1 = 'x' ∨ c1 = 'X')
      | _ => false
    let s2 := if hex then s1.drop 2 else s1
    match readMantissa hex s2 false false false with
    | (false, _, _) => none
    | (true, us, s3) =>
      let afterExp : Option (Bool × List Char) :=
        match s3 with
        | e :: s4 =>
          if (hex ∧ (e = 'p' ∨ e = 'P')) ∨ (¬ hex ∧ (e = 'e' ∨ e = 'E')) then
            match s4 with
            | [] => none
            | g :: s5 =>
              let s6 := if g = '+' ∨ g = '-' then s5 else s4
              match s6 with
              | [] => none
              | d :: _ => if d.isDigit then some (readExpDigits s6 us) else none
          else if hex then none
          else some (us, s3)
        | [] => if hex then none else some (us, s3)
      match afterExp with
      | none => none
      | some (us1, rest) =>
        if us1 ∧ ¬ underscoreOK (s.take (s.length - rest.length)) then none
        else some rest

/-- The call `strconv.ParseFloat(s, 64)`. The special names are recognised first; any other
text must pass `readFloat` entirely, and is then converted by `convert`, which stands for
the decimal to binary conversion and is `none` when the value is out of range. -/
def ParseFloat64 {F : Type} (convert : String → Option F) (s : String) :
    Except GoError (Float64 F) :=
  match (special s.data : Option (Float64 F × Nat)) with
  | some (v, n) =>
    if n ≠ s.data.length then .error (.NumError "ParseFloat" s .ErrSyntax) else .ok v
  | none =>
    match readFloat s.data with
    | none => .error (.NumError "ParseFloat" s .ErrSyntax)
    | some rest =>
      if rest ≠ [] then .error (.NumError "ParseFloat" s .ErrSyntax)
      else
        match convert s with
        | none => .error (.NumError "ParseFloat" s .ErrRange)
        | some x => .ok (.number x)

/-! ## `time.Parse` with the layout `"2/1/2006 15:04:05"` -/

/-- The fields of a `time.Time` that `time.Parse` sets. A layout without zone information
yields a time in UTC, recorded as `offset = 0` (seconds east of UTC). -/
structure Time where
  year : Nat
  month : Nat
  day : Nat
  hour : Nat
  min : Nat
  sec : Nat
  nsec : Nat
  offset : Int
  deriving DecidableEq, Repr

/-- The value of a decimal digit byte. -/
def digitVal (c : Char) : Nat := c.toNat - 48

/-- The helper `getnum(s, fixed)` of package `time`: a one- or two-digit number at the head
of `s`; with `fixed`, exactly two digits are required. `none` is `errBad`. -/
def getnum (s : List Char) (fixed : Bool) : Option (Nat × List Char) :=
  match s with
  | [] => none
  | c0 :: rest =>
    if ¬ c0.isDigit then none
    else
      match rest with
      | [] => if fixed then none else some (digitVal c0, rest)
      | c1 :: rest1 =>
        if ¬ c1.isDigit then (if fixed then none else some (digitVal c0, rest))
        else some (digitVal c0 * 10 + digitVal c1, rest1)

/-- The helper `cutspace` of package `time`: drops leading spaces. -/
def cutspace : List Char → List Char
  | [] => []
  | c :: s => if c = ' ' then cutspace s else c :: s

/-- The helper `skip(value, pfx)` of package `time` for a one-byte `pfx`: a space in the
layout matches a run of spaces in the value (or the end of the value), any other byte
matches itself. `none` is `errBad`. -/
def skip1 (value : List Char) (p : Char) : Option (List Char) :=
  if p = ' ' then
    match value with
    | [] => some []
    | v :: _ => if v ≠ ' ' then none else some (cutspace value)
  else
    match value with
    | [] => none
    | v :: vs => if v ≠ p then none else some vs

/-- The value of a run of decimal digits (`atoi` on a string already known to be digits). -/
def digitsVal (ds : List Char) : Nat := ds.foldl (fun n c => n * 10 + digitVal c) 0

/-- The `stdLongYear` case of `time.Parse`: four bytes, all digits (`atoi` rejects the
chunk when a non-digit is left over). -/
def getyear (value : List Char) : Option (Nat × List Char) :=
  match value with
  | a :: b :: c :: d :: rest =>
    if a.isDigit ∧ b.isDigit ∧ c.isDigit ∧ d.isDigit then some (digitsVal [a, b, c, d], rest)
    else none
  | _ => none

/-- The fractional second that `time.Parse` accepts after the seconds field although the
layout has none: a period or comma followed by at least one digit; `parseNanoseconds` reads
at most nine digits and scales to nanoseconds. Returns the nanoseconds and the rest. -/
def getfrac (value : List Char) : Nat × List Char :=
  match value with
  | p :: d :: rest =>
    if (p = '.' ∨ p = ',') ∧ d.isDigit then
      let digits := d :: rest.takeWhile Char.isDigit
      let used := digits.take 9
      (digitsVal used * 10 ^ (9 - used.length), rest.dropWhile Char.isDigit)
    else (0, value)
  | _ => (0, value)

/-- The function `isLeap` of package `time`. -/
def isLeap (year : Nat) : Bool := year % 4 == 0 && (year % 100 != 0 || year % 400 == 0)

/-- The function `daysIn(m, year)` of package `time`. -/
def daysIn (m year : Nat) : Nat :=
  if m = 2 ∧ isLeap year then 29
  else match m with
    | 1 => 31 | 2 => 28 | 3 => 31 | 4 => 30 | 5 => 31 | 6 => 30
    | 7 => 31 | 8 => 31 | 9 => 30 | 10 => 31 | 11 => 30 | 12 => 31
    | _ => 0

/-- The `*time.ParseError` built by `newParseError`. -/
def timeError (layoutElem : String) (valueElem : List Char) (message : String) : GoError :=
  .TimeParseError layoutElem (String.mk valueElem) message

/-- The call `time.Parse("2/1/2006 15:04:05", value)`. `nextStdChunk` cuts the layout into
day `2`, `/`, month `1`, `/`, year `2006`, a space, hour `15`, `:`, minute `04`, `:`, second
`05`; each chunk is read in turn, a range error is reported before a syntax error, text
left over is an error, and the day is validated against the month last. -/
def timeParse (value : String) : Except GoError Time :=
  match getnum value.data false with
  | none => .error (timeError "2" value.data "")
  | some (day, v1) =>
  match skip1 v1 '/' with
  | none => .error (timeError "/" v1 "")
  | some v2 =>
  match getnum v2 false with
  | none => .error (timeError "1" v2 "")
  | some (month, v3) =>
  if month ≤ 0 ∨ 12 < month then .error (timeError "1" v3 ": month out of range")
  else
  match skip1 v3 '/' with
  | none => .error (timeError "/" v3 "")
  | some v4 =>
  match getyear v4 with
  | none => .error (timeError "2006" v4 "")
  | some (year, v5) =>
  match skip1 v5 ' ' with
  | none => .error (timeError " " v5 "")
  | some v6 =>
  match getnum v6 false with
  | none => .error (timeError "15" v6 "")
  | some (hour, v7) =>
  if 24 ≤ hour then .error (timeError "15" v7 ": hour out of range")
  else
  match skip1 v7 ':' with
  | none => .error (timeError ":" v7 "")
  | some v8 =>
  match getnum v8 true with
  | none => .error (timeError "04" v8 "")
  | some (min, v9) =>
  if 60 ≤ min then .error (timeError "04" v9 ": minute out of range")
  else
  match skip1 v9 ':' with
  | none => .error (timeError ":" v9 "")
  | some v10 =>
  match getnum v10 true with
  | none => .error (timeError "05" v10 "")
  | some (sec, v11) =>
  if 60 ≤ sec then .error (timeError "05" v11 ": second out of range")
  else
  match getfrac v11 with
  | (nsec, v12) =>
  if v12 ≠ [] then .error (timeError "" v12 (": extra text: " ++ (String.mk v12).quote))
  else if day < 1 ∨ day > daysIn month year then
    .error (timeError "" v12 ": day out of range")
  else .ok ⟨year, month, day, hour, min, sec, nsec, 0⟩

/-! ## `types.go` -/

/-- The struct `Record`; `F` stands for `float64`. -/
structure Record (F : Type) where
  IDImpianto : Int
  Carburante : String
  Prezzo : F
  SelfService : Bool
  DataComunicazione : Time
  deriving DecidableEq, Repr

/-- The type `StationID` (a Go `int`). -/
abbrev StationID := Int

/-- The type `StationType` (a Go `string`). -/
abbrev StationType := String

/-- The struct `Station`. -/
structure Station where
  ID : StationID
  Gestore : String
  Bandiera : String
  Tipo : StationType
  Nome : String
  Indirizzo : String
  Comune : String
  Provincia : String
  Lat : String
  Long : String
  deriving DecidableEq, Repr

/-- The constant `StationTypeStradale`. -/
def StationTypeStradale : StationType := "Stradale"

/-- The constant `StationTypeAutostradale`. -/
def StationTypeAutostradale : StationType := "Autostradale"

/-- The constant `pricesCSVURL`. -/
def pricesCSVURL : String := "https://www.mimit.gov.it/images/exportCSV/prezzo_alle_8.csv"

/-- The constant `stationsCSVURL`. -/
def stationsCSVURL : String :=
  "https://www.mimit.gov.it/images/exportCSV/anagrafica_impianti_attivi.csv"

/-! ## `parseRecord` -/

/-- The function `parseRecord`. `bits` is the width of `int` on the target and `ParseFloat`
is `strconv.ParseFloat(·, 64)`, a parameter of the model. The result is Go's pair
`(*Record, error)`. -/
def parseRecord {F : Type} (bits : Nat) (ParseFloat : String → Except GoError F)
    (items : List String) : Option (Record F) × Option GoError :=
  match items with
  | [i0, i1, i2, i3, i4] =>
    match ParseInt i0 with
    | .error err => (none, some (.wrapError "IDImpianto is not a numeric string: " err))
    | .ok idImpianto =>
    match ParseFloat i2 with
    | .error err => (none, some (.wrapError "Prezzo is not a float string: " err))
    | .ok prezzo =>
    match ParseBool i3 with
    | .error err => (none, some (.wrapError "SelfService is not a bool string: " err))
    | .ok selfService =>
    match timeParse i4 with
    | .error err => (none, some (.wrapError "DataComunicazione is not a time string: " err))
    | .ok dataComunicazione =>
      (some ⟨toInt bits idImpianto, i1, prezzo, selfService, dataComunicazione⟩, none)
  | _ => (none, some (.errorString ("expected 5 fields, got " ++ toString items.length)))

/-! ## The CSV tokenizer -/

/-- Why the tokenizer gave up on a line. -/
inductive Cause where
  /-- A bare quote in a non-quoted field (`ErrBareQuote`) at a column. -/
  | bareQuote (column : Nat)
  /-- An extraneous or missing quote in a quoted field (`ErrQuote`) at a column. -/
  | quote (column : Nat)
  /-- A non-EOF error of the underlying byte stream. -/
  | stream (msg : String)
  deriving DecidableEq, Repr

/-- One non-empty line of the data part of the feed, as the field splitter of
`csv.Reader.readRecord` sees it: either it splits into fields, or splitting stops with an
error after the fields read so far. (Empty lines are skipped by the reader and are not
part of this list; the end of the list is `io.EOF`.) -/
inductive Line where
  /-- The line splits into these fields. -/
  | fields (fs : List String)
  /-- Splitting failed; `fs` is the partial record. -/
  | failed (fs : List String) (cause : Cause)
  deriving DecidableEq, Repr

/-- The end of `csv.Reader.readRecord`, hence the result of `r.Read()` on a line: the
record, the error, and the next free heap address. With `FieldsPerRecord > 0`, a record of
another length is returned together with a freshly allocated
`&ParseError{..., Err: ErrFieldCount}`, unless splitting already failed. -/
def csvRead (FieldsPerRecord numLine heap : Nat) : Line → List String × Option GoError × Nat
  | .fields fs =>
    if FieldsPerRecord > 0 ∧ fs.length ≠ FieldsPerRecord then
      (fs, some (.ParseError heap numLine numLine 1 .ErrFieldCount), heap + 1)
    else (fs, none, heap)
  | .failed fs (.bareQuote column) =>
    (fs, some (.ParseError heap numLine numLine column .ErrBareQuote), heap + 1)
  | .failed fs (.quote column) =>
    (fs, some (.ParseError heap numLine numLine column .ErrQuote), heap + 1)
  | .failed fs (.stream msg) => (fs, some (.streamError msg), heap)

/-! ## `GetRecords` -/

/-- The row loop of `GetRecords` (lines 39 to 54): `lines` is what is left of the feed,
`numLine` the reader's line counter, `heap` the next free heap address, `records` the slice
built so far (a `[]*Record`, so each element is an optional record). -/
def recordsLoop {F : Type} (bits : Nat) (ParseFloat : String → Except GoError F) :
    List Line → Nat → Nat → List (Option (Record F)) →
      List (Option (Record F)) × Option GoError
  | [], _, _, records => (records, none)
  | line :: rest, numLine, heap, records =>
    match csvRead 5 (numLine + 1) heap line with
    | (_, some err, _) => ([], some (.wrapError "failed to read CSV record: " err))
    | (items, none, heap1) =>
      match parseRecord bits ParseFloat items with
      | (_, some err) => ([], some (.wrapError "failed to parse record: " err))
      | (record, none) =>
        recordsLoop bits ParseFloat rest (numLine + 1) heap1 (records ++ [record])

/-- The row scan of `GetRecords`: the loop started on an empty slice. The two header lines
have been consumed, so the reader's first line is line 1 of the data. -/
def GetRecordsScan {F : Type} (bits : Nat) (ParseFloat : String → Except GoError F)
    (lines : List Line) (heap : Nat) : List (Option (Record F)) × Option GoError :=
  recordsLoop bits ParseFloat lines 0 heap []

/-! ## `GetStations` -/

/-- A Go `map[StationID]Station`, as an association list holding at most one entry per
key. Go maps have no iteration order; only lookups and the size are observed. -/
abbrev StationMap := List (StationID × Station)

/-- The index expression `stationMap[k]` in its comma-ok form. -/
def StationMap.get (m : StationMap) (k : StationID) : Option Station := List.lookup k m

/-- The assignment `stationMap[k] = v`: the entry for `k`, if any, is replaced. -/
def StationMap.set (m : StationMap) (k : StationID) (v : Station) : StationMap :=
  (k, v) :: m.filter (fun e => e.1 ≠ k)

/-- The built-in `len(stationMap)`. -/
def StationMap.len (m : StationMap) : Nat := m.length

/-- A line written by `log.Printf`. -/
inductive LogEntry where
  /-- The text "Skipping malformed record with wrong number of fields". -/
  | skipping
  /-- The text "Found duplicate type '%s' for station ID %d" with its two arguments. -/
  | duplicate (tipo : String) (idImpianto : Int)
  deriving DecidableEq, Repr

/-- The run-time panic "index out of range [index] with length length". -/
structure Panic where
  index : Nat
  length : Nat
  deriving DecidableEq, Repr

/-- How a call ends: it returns Go's pair `(value, error)`, or it panics. -/
inductive Outcome (α : Type) where
  /-- The call returned. -/
  | returned (value : α) (err : Option GoError)
  /-- The call panicked. -/
  | panicked (p : Panic)
  deriving DecidableEq, Repr

/-- The index expression `items[i]`, which panics when `i` is out of range. -/
def index (items : List String) (i : Nat) : Except Panic String :=
  match items[i]? with
  | some s => .ok s
  | none => .error ⟨i, items.length⟩

/-- The composite literal `Station{ID: ..., Gestore: items[1], ..., Long: items[9]}` of
lines 125 to 136; the index expressions are evaluated in order. -/
def stationLiteral (id : StationID) (items : List String) : Except Panic Station :=
  match index items 1 with
  | .error p => .error p
  | .ok gestore =>
  match index items 2 with
  | .error p => .error p
  | .ok bandiera =>
  match index items 3 with
  | .error p => .error p
  | .ok tipo =>
  match index items 4 with
  | .error p => .error p
  | .ok nome =>
  match index items 5 with
  | .error p => .error p
  | .ok indirizzo =>
  match index items 6 with
  | .error p => .error p
  | .ok comune =>
  match index items 7 with
  | .error p => .error p
  | .ok provincia =>
  match index items 8 with
  | .error p => .error p
  | .ok lat =>
  match index items 9 with
  | .error p => .error p
  | .ok long =>
    .ok ⟨id, gestore, bandiera, tipo, nome, indirizzo, comune, provincia, lat, long⟩

/-- The block of lines 109 to 116: whether the row is skipped with `continue`. The target of
`errors.Is` is the new variable `&csv.ParseError{}`, allocated at address `target`. -/
def skipsRow (err : Option GoError) (target : Nat) : Bool :=
  match err with
  | none => false
  | some e =>
    if GoError.errorsIs e target then
      if stringsContains e.Error "wrong number of fields" then true else false
    else false

/-- The row loop of `GetStations` (lines 104 to 138): `lines` is what is left of the feed,
`numLine` the reader's line counter, `heap` the next free heap address, `stationMap` the map
built so far and `log` the lines logged so far. -/
def stationsLoop (bits : Nat) :
    List Line → Nat → Nat → StationMap → List LogEntry →
      Outcome (Option StationMap) × List LogEntry
  | [], _, _, stationMap, log => (.returned (some stationMap) none, log)
  | line :: rest, numLine, heap, stationMap, log =>
    match csvRead 10 (numLine + 1) heap line with
    | (items, err, heap1) =>
      let heap2 := if err.isSome then heap1 + 1 else heap1
      if skipsRow err heap1 then
        stationsLoop bits rest (numLine + 1) heap2 stationMap (log ++ [.skipping])
      else
        match index items 0 with
        | .error p => (.panicked p, log)
        | .ok i0 =>
        match ParseInt i0 with
        | .error e =>
          (.returned none (some (.wrapError "IDImpianto is not a numeric string: " e)), log)
        | .ok idImpianto =>
        match (if (stationMap.get (toInt bits idImpianto)).isSome then
            (match index items 3 with
              | .error p => Except.error p
              | .ok tipo => .ok (log ++ [LogEntry.duplicate tipo idImpianto]))
          else .ok log) with
        | .error p => (.panicked p, log)
        | .ok log1 =>
        match stationLiteral (toInt bits idImpianto) items with
        | .error p => (.panicked p, log1)
        | .ok station =>
          stationsLoop bits rest (numLine + 1) heap2
            (stationMap.set (toInt bits idImpianto) station) log1

/-- The row scan of `GetStations`: the loop started on the empty map of line 103. -/
def GetStationsScan (bits : Nat) (lines : List Line) (heap : Nat) :
    Outcome (Option StationMap) × List LogEntry :=
  stationsLoop bits lines 0 heap [] []

/-! ## The header skip: `bufio.Reader.ReadLine` -/

/-- The constant `defaultBufSize` of package `bufio`, the buffer size of `bufio.NewReader`. -/
def defaultBufSize : Nat := 4096

/-- The call `b.ReadSlice('\n')` on a reader with a buffer of `size` bytes and unread input
`input` (the bytes still to come, ended by `io.EOF`): the slice, the error and the input
left. The delimiter is searched in the buffer only, that is in the next `size` bytes. -/
def ReadSlice (size : Nat) (input : List UInt8) : List UInt8 × Option GoError × List UInt8 :=
  if 10 ∈ input.take size then
    (input.takeWhile (· ≠ 10) ++ [10], none, (input.dropWhile (· ≠ 10)).drop 1)
  else if input.length < size then (input, some .EOF, [])
  else (input.take size, some .ErrBufferFull, input.drop size)

/-- The call `b.ReadLine()`: the line, the flag `isPrefix`, the error and the input left. -/
def ReadLine (size : Nat) (input : List UInt8) :
    List UInt8 × Bool × Option GoError × List UInt8 :=
  match ReadSlice size input with
  | (line, some .ErrBufferFull, rest) =>
    if line.getLast? = some 13 then (line.dropLast, true, none, 13 :: rest)
    else (line, true, none, rest)
  | (line, err, rest) =>
    if line.length = 0 then (if err ≠ none then ([], false, err, rest) else (line, false, err, rest))
    else if line.getLast? = some 10 then
      if line.length > 1 ∧ line.dropLast.getLast? = some 13 then
        (line.dropLast.dropLast, false, none, rest)
      else (line.dropLast, false, none, rest)
    else (line, false, none, rest)

/-- The loop of lines 31 to 35 (and 94 to 98): two calls of `ReadLine` whose line and
`isPrefix` results are discarded. The result is the input left for the CSV reader, which
reads through the same buffered reader. -/
def skipHeader (size : Nat) (input : List UInt8) : Except GoError (List UInt8) :=
  match ReadLine size input with
  | (_, _, some err, _) => .error (.wrapError "failed to read line: " err)
  | (_, _, none, rest1) =>
    match ReadLine size rest1 with
    | (_, _, some err, _) => .error (.wrapError "failed to read line: " err)
    | (_, _, none, rest2) => .ok rest2

/-! ## The two entry points -/

/-- The function `GetRecords`. `httpGet` is the outcome of `http.Get(pricesCSVURL)` (the
body bytes, or the transport error) and `tokenize` is the field splitter of `csv.Reader`
with `Comma = ';'`, a parameter of the model. -/
def GetRecords {F : Type} (bits : Nat) (ParseFloat : String → Except GoError F)
    (tokenize : List UInt8 → List Line) (httpGet : Except GoError (List UInt8)) (heap : Nat) :
    List (Option (Record F)) × Option GoError :=
  match httpGet with
  | .error err => ([], some (.wrapError "failed to fetch prices: " err))
  | .ok body =>
    match skipHeader defaultBufSize body with
    | .error err => ([], some err)
    | .ok data => GetRecordsScan bits ParseFloat (tokenize data) heap

/-- The function `GetStations`, with `httpGet` and `tokenize` as for `GetRecords` (here the
splitter runs with `LazyQuotes`). -/
def GetStations (bits : Nat) (tokenize : List UInt8 → List Line)
    (httpGet : Except GoError (List UInt8)) (heap : Nat) :
    Outcome (Option StationMap) × List LogEntry :=
  match httpGet with
  | .error err => (.returned none (some (.wrapError "failed to fetch station data: " err)), [])
  | .ok body =>
    match skipHeader defaultBufSize body with
    | .error err => (.returned none (some err), [])
    | .ok data => GetStationsScan bits (tokenize data) heap

/-! ## Vocabulary of the statements -/

/-- Every field of a price row converts: field 1 by `ParseInt`, field 3 by `ParseFloat`,
field 4 by `ParseBool` and field 5 by `time.Parse`. -/
def fieldsConvert {F : Type} (ParseFloat : String → Except GoError F) (r : List String) : Prop :=
  (∃ n, ParseInt (r.getD 0 "") = .ok n) ∧ (∃ p, ParseFloat (r.getD 2 "") = .ok p) ∧
    (∃ b, ParseBool (r.getD 3 "") = .ok b) ∧ (∃ t, timeParse (r.getD 4 "") = .ok t)

/-- The station identifier of a row: `StationID(idImpianto)` for the integer that
`ParseInt` reads in the first field, if it reads one. -/
def rowID (bits : Nat) (r : List String) : Option StationID :=
  match r with
  | [] => none
  | i0 :: _ =>
    match ParseInt i0 with
    | .ok n => some (toInt bits n)
    | .error _ => none

/-- The nine string fields of a station, in column order. -/
def Station.columns (st : Station) : List String :=
  [st.Gestore, st.Bandiera, st.Tipo, st.Nome, st.Indirizzo, st.Comune, st.Provincia,
    st.Lat, st.Long]

/-- The station that `GetStations` builds from a row under the key `id`: columns 2 to 10
copied into the nine string fields. -/
def rowStation (id : StationID) (r : List String) : Station :=
  ⟨id, r.getD 1 "", r.getD 2 "", r.getD 3 "", r.getD 4 "", r.getD 5 "", r.getD 6 "",
    r.getD 7 "", r.getD 8 "", r.getD 9 ""⟩

/-- The effect of one well-formed row on the map: the entry of the row's identifier is
set to the row's station. -/
def storeRow (bits : Nat) (m : StationMap) (r : List String) : StationMap :=
  match rowID bits r with
  | some k => m.set k (rowStation k r)
  | none => m

/-- The keys of a station map, one per entry. -/
def StationMap.keys (m : StationMap) : List StationID := m.map Prod.fst

/-- The pieces of a timestamp text: day, month and year numerals, the number of spaces
between date and time, hour, minute and second numerals, and the fractional second
(separator included, empty when there is none). -/
structure TimeText where
  day : List Char
  month : List Char
  year : List Char
  spaces : Nat
  hour : List Char
  min : List Char
  sec : List Char
  frac : List Char
  deriving DecidableEq, Repr

/-- The text a `TimeText` stands for: `day/month/year`, spaces, `hour:min:sec`, fraction. -/
def TimeText.render (t : TimeText) : List Char :=
  t.day ++ '/' :: (t.month ++ '/' :: (t.year ++ (List.replicate t.spaces ' ' ++
    (t.hour ++ ':' :: (t.min ++ ':' :: (t.sec ++ t.frac))))))

/-- All bytes are decimal digits. -/
def allDigits (ds : List Char) : Prop := ∀ c ∈ ds, c.isDigit = true

/-- The shape that `time.Parse` reads with the layout `2/1/2006 15:04:05`: day, month and
hour of one or two digits, a four-digit year, at least one space, minute and second of two
digits, and an optional fractional second made of a period or comma and digits. -/
def TimeText.shape (t : TimeText) : Prop :=
  (allDigits t.day ∧ (t.day.length = 1 ∨ t.day.length = 2)) ∧
  (allDigits t.month ∧ (t.month.length = 1 ∨ t.month.length = 2)) ∧
  (allDigits t.year ∧ t.year.length = 4) ∧
  1 ≤ t.spaces ∧
  (allDigits t.hour ∧ (t.hour.length = 1 ∨ t.hour.length = 2)) ∧
  (allDigits t.min ∧ t.min.length = 2) ∧
  (allDigits t.sec ∧ t.sec.length = 2) ∧
  (t.frac = [] ∨ ∃ c ds, t.frac = c :: ds ∧ (c = '.' ∨ c = ',') ∧ ds ≠ [] ∧ allDigits ds)

/-- The text denotes a valid calendar date and time of day. -/
def TimeText.valid (t : TimeText) : Prop :=
  (1 ≤ digitsVal t.month ∧ digitsVal t.month ≤ 12) ∧
  (1 ≤ digitsVal t.day ∧ digitsVal t.day ≤ daysIn (digitsVal t.month) (digitsVal t.year)) ∧
  digitsVal t.hour < 24 ∧ digitsVal t.min < 60 ∧ digitsVal t.sec < 60

/-- The nanoseconds a fractional second denotes: its first nine digits, scaled. -/
def fracNanos (frac : List Char) : Nat :=
  digitsVal ((frac.drop 1).take 9) * 10 ^ (9 - ((frac.drop 1).take 9).length)

/-- The time a `TimeText` denotes, in UTC. -/
def TimeText.time (t : TimeText) : Time :=
  ⟨digitsVal t.year, digitsVal t.month, digitsVal t.day, digitsVal t.hour, digitsVal t.min,
    digitsVal t.sec, fracNanos t.frac, 0⟩

/-- The pattern of the specification, `D/M/YYYY HH:MM:SS` with day and month written
without a leading zero: a single space, a two-digit hour, no fractional second. -/
def TimeText.strict (t : TimeText) : Prop :=
  t.day.head? ≠ some '0' ∧ t.month.head? ≠ some '0' ∧ t.spaces = 1 ∧ t.hour.length = 2 ∧
    t.frac = []

/-- The fields that `r.Read()` returns for a line. -/
def Line.items : Line → List String
  | .fields fs => fs
  | .failed fs _ => fs

/-- A base-10 integer text: an optional sign followed by decimal digits only (at least
one). -/
def isBase10Int (s : List Char) : Prop :=
  match s with
  | [] => False
  | c :: cs => if c = '+' ∨ c = '-' then cs ≠ [] ∧ allDigits cs else allDigits (c :: cs)

/-- The integer that a base-10 integer text denotes. -/
def base10Value (s : List Char) : Int :=
  match s with
  | [] => 0
  | c :: cs =>
    if c = '-' then - (digitsVal cs : Int)
    else if c = '+' then (digitsVal cs : Int)
    else (digitsVal (c :: cs) : Int)

/-- Every entry of the map stored under a key `k` has its `ID` field equal to `k`. -/
def KeyedByID (m : StationMap) : Prop := ∀ e ∈ m, e.2.ID = e.1

/-- The integer `idImpianto` that `ParseInt` reads in the first field of a row (0 when it
reads none). -/
def rowInt (r : List String) : Int :=
  match ParseInt (r.getD 0 "") with
  | .ok n => n
  | .error _ => 0

/-- The duplicate diagnostics that the specification asks for, row by row: a row whose
identifier is the identifier of an earlier row gives one diagnostic, carrying the row's
type field (column 4) and its identifier; any other row gives none. `earlier` holds the
rows already seen. -/
def duplicateLog (bits : Nat) : List (List String) → List (List String) → List LogEntry
  | _, [] => []
  | earlier, r :: rest =>
    (if rowID bits r ∈ earlier.map (rowID bits) then
        [LogEntry.duplicate (r.getD 3 "") (rowInt r)]
      else []) ++ duplicateLog bits (earlier ++ [r]) rest

/-! ## Lemmas on `parseRecord` and the price scan -/

theorem parseRecord_length_ne {F : Type} (bits : Nat) (ParseFloat : String → Except GoError F)
    (items : List String) (h : items.length ≠ 5) :
    parseRecord bits ParseFloat items =
      (none, some (.errorString ("expected 5 fields, got " ++ toString items.length))) := by
  unfold parseRecord
  split
  · simp at h
  · rfl

theorem parseRecord_total {F : Type} (bits : Nat) (ParseFloat : String → Except GoError F)
    (items : List String) :
    (∃ r, parseRecord bits ParseFloat items = (some r, none)) ∨
      (∃ e, parseRecord bits ParseFloat items = (none, some e)) := by
  unfold parseRecord
  repeat' split
  all_goals simp

theorem csvRead_fields_eq (n numLine heap : Nat) (fs : List String) (h : fs.length = n) :
    csvRead n numLine heap (.fields fs) = (fs, none, heap) := by
  simp [csvRead, h]

theorem csvRead_fields_ne (n numLine heap : Nat) (fs : List String) (hn : 0 < n)
    (h : fs.length ≠ n) :
    csvRead n numLine heap (.fields fs) =
      (fs, some (.ParseError heap numLine numLine 1 .ErrFieldCount), heap + 1) := by
  simp [csvRead, h, hn]

theorem recordsLoop_cons_fields {F : Type} (bits : Nat) (ParseFloat : String → Except GoError F)
    (fs : List String) (rest : List Line) (numLine heap : Nat)
    (acc : List (Option (Record F))) (h5 : fs.length = 5)
    (hok : (parseRecord bits ParseFloat fs).2 = none) :
    recordsLoop bits ParseFloat (.fields fs :: rest) numLine heap acc =
      recordsLoop bits ParseFloat rest (numLine + 1) heap
        (acc ++ [(parseRecord bits ParseFloat fs).1]) := by
  rw [recordsLoop, csvRead_fields_eq 5 _ _ fs h5]
  rcases hp : parseRecord bits ParseFloat fs with ⟨r, e⟩
  rw [hp] at hok
  simp only at hok
  subst hok
  simp only [hp]

theorem recordsLoop_fields_ok {F : Type} (bits : Nat) (ParseFloat : String → Except GoError F)
    (rows : List (List String))
    (h : ∀ r ∈ rows, r.length = 5 ∧ (parseRecord bits ParseFloat r).2 = none) :
    ∀ (numLine heap : Nat) (acc : List (Option (Record F))),
      recordsLoop bits ParseFloat (rows.map Line.fields) numLine heap acc =
        (acc ++ rows.map (fun r => (parseRecord bits ParseFloat r).1), none) := by
  induction rows with
  | nil => intro numLine heap acc; simp [recordsLoop]
  | cons r rows ih =>
    intro numLine heap acc
    have hr := h r (List.mem_cons_self _ _)
    rw [List.map_cons, recordsLoop_cons_fields bits ParseFloat r _ _ _ _ hr.1 hr.2,
      ih (fun x hx => h x (List.mem_cons_of_mem _ hx))]
    simp

/-- One iteration of the price loop either returns an error with a nil slice or goes on
with one more record. -/
theorem recordsLoop_step {F : Type} (bits : Nat) (ParseFloat : String → Except GoError F)
    (line : Line) (rest : List Line) (numLine heap : Nat) (acc : List (Option (Record F))) :
    (∃ e, recordsLoop bits ParseFloat (line :: rest) numLine heap acc = ([], some e)) ∨
      (∃ fs heap1 rec, line = .fields fs ∧ fs.length = 5 ∧
        parseRecord bits ParseFloat fs = (some rec, none) ∧
        recordsLoop bits ParseFloat (line :: rest) numLine heap acc =
          recordsLoop bits ParseFloat rest (numLine + 1) heap1 (acc ++ [some rec])) := by
  cases line with
  | failed fs cause =>
    left
    cases cause <;> exact ⟨_, rfl⟩
  | fields fs =>
    by_cases h5 : fs.length = 5
    · rcases parseRecord_total bits ParseFloat fs with ⟨r, hr⟩ | ⟨e, he⟩
      · right
        refine ⟨fs, heap, r, rfl, h5, hr, ?_⟩
        rw [recordsLoop_cons_fields bits ParseFloat fs _ _ _ _ h5 (by rw [hr]), hr]
      · left
        refine ⟨.wrapError "failed to parse record: " e, ?_⟩
        rw [recordsLoop, csvRead_fields_eq 5 _ _ fs h5]
        simp only [he]
    · left
      refine ⟨.wrapError "failed to read CSV record: "
        (.ParseError heap (numLine + 1) (numLine + 1) 1 .ErrFieldCount), ?_⟩
      rw [recordsLoop, csvRead_fields_ne 5 _ _ fs (by decide) h5]

theorem recordsLoop_error_nil {F : Type} (bits : Nat) (ParseFloat : String → Except GoError F)
    (lines : List Line) :
    ∀ (numLine heap : Nat) (acc : List (Option (Record F))),
      (recordsLoop bits ParseFloat lines numLine heap acc).2 ≠ none →
        (recordsLoop bits ParseFloat lines numLine heap acc).1 = [] := by
  induction lines with
  | nil => intro numLine heap acc h; simp [recordsLoop] at h
  | cons line rest ih =>
    intro numLine heap acc h
    rcases recordsLoop_step bits ParseFloat line rest numLine heap acc with
      ⟨e, he⟩ | ⟨fs, heap1, rec, _, _, _, hgo⟩
    · rw [he]
    · rw [hgo] at h ⊢
      exact ih _ _ _ h

theorem recordsLoop_bad_row {F : Type} (bits : Nat) (ParseFloat : String → Except GoError F)
    (lines : List Line)
    (h : ∃ fs, Line.fields fs ∈ lines ∧
      (fs.length ≠ 5 ∨ (parseRecord bits ParseFloat fs).2 ≠ none)) :
    ∀ (numLine heap : Nat) (acc : List (Option (Record F))),
      ∃ e, recordsLoop bits ParseFloat lines numLine heap acc = ([], some e) := by
  induction lines with
  | nil => obtain ⟨fs, hmem, _⟩ := h; simp at hmem
  | cons line rest ih =>
    intro numLine heap acc
    rcases recordsLoop_step bits ParseFloat line rest numLine heap acc with
      ⟨e, he⟩ | ⟨fs', heap1, rec, hline, h5, hrec, hgo⟩
    · exact ⟨e, he⟩
    · obtain ⟨fs, hmem, hbad⟩ := h
      rw [hgo]
      rcases List.mem_cons.1 hmem with heq | hrest
      · exfalso
        rw [hline] at heq
        injection heq with heq
        subst heq
        rcases hbad with hb | hb
        · exact hb h5
        · rw [hrec] at hb; exact hb rfl
      · exact ih ⟨fs, hrest, hbad⟩ _ _ _

theorem parseRecord_of_convert {F : Type} (bits : Nat) (ParseFloat : String → Except GoError F)
    (r : List String) (h5 : r.length = 5) (hc : fieldsConvert ParseFloat r) :
    ∃ rec, parseRecord bits ParseFloat r = (some rec, none) ∧
      r[1]? = some rec.Carburante := by
  match r, h5 with
  | [i0, i1, i2, i3, i4], _ =>
    obtain ⟨⟨n, hn⟩, ⟨p, hp⟩, ⟨b, hb⟩, ⟨t, ht⟩⟩ := hc
    simp only [List.getD_cons_zero, List.getD_cons_succ] at hn hp hb ht
    exact ⟨⟨toInt bits n, i1, p, b, t⟩, by simp [parseRecord, hn, hp, hb, ht], rfl⟩

/-- Whether the price loop fails on a feed, and the records it appends when it does not,
depend on the feed alone, not on the line counter, the heap or the slice built so far. -/
theorem recordsLoop_uniform {F : Type} (bits : Nat) (ParseFloat : String → Except GoError F)
    (lines : List Line) :
    (∀ (numLine heap : Nat) (acc : List (Option (Record F))),
      ∃ e, recordsLoop bits ParseFloat lines numLine heap acc = ([], some e)) ∨
    (∃ rs, ∀ (numLine heap : Nat) (acc : List (Option (Record F))),
      recordsLoop bits ParseFloat lines numLine heap acc = (acc ++ rs, none)) := by
  induction lines with
  | nil => exact Or.inr ⟨[], fun _ _ acc => by simp [recordsLoop]⟩
  | cons line rest ih =>
    cases line with
    | failed fs cause =>
      left
      intro numLine heap acc
      cases cause <;> exact ⟨_, rfl⟩
    | fields fs =>
      by_cases h5 : fs.length = 5
      · rcases parseRecord_total bits ParseFloat fs with ⟨r, hr⟩ | ⟨e, he⟩
        · have hstep : ∀ (numLine heap : Nat) (acc : List (Option (Record F))),
              recordsLoop bits ParseFloat (.fields fs :: rest) numLine heap acc =
                recordsLoop bits ParseFloat rest (numLine + 1) heap (acc ++ [some r]) := by
            intro numLine heap acc
            rw [recordsLoop_cons_fields bits ParseFloat fs _ _ _ _ h5 (by rw [hr]), hr]
          rcases ih with hfail | ⟨rs, hrs⟩
          · left
            intro numLine heap acc
            rw [hstep]
            exact hfail _ _ _
          · right
            refine ⟨some r :: rs, ?_⟩
            intro numLine heap acc
            rw [hstep, hrs]
            simp
        · left
          intro numLine heap acc
          refine ⟨.wrapError "failed to parse record: " e, ?_⟩
          rw [recordsLoop, csvRead_fields_eq 5 _ _ fs h5]
          simp only [he]
      · left
        intro numLine heap acc
        refine ⟨.wrapError "failed to read CSV record: "
          (.ParseError heap (numLine + 1) (numLine + 1) 1 .ErrFieldCount), ?_⟩
        rw [recordsLoop, csvRead_fields_ne 5 _ _ fs (by decide) h5]

/-- The price loop on `a ++ b` fails when it fails on `a`, and otherwise goes on with `b`
from the slice it has built on `a`. -/
theorem recordsLoop_append {F : Type} (bits : Nat) (ParseFloat : String → Except GoError F)
    (a : List Line) :
    (∀ (b : List Line) (numLine heap : Nat) (acc : List (Option (Record F))),
      ∃ e, recordsLoop bits ParseFloat (a ++ b) numLine heap acc = ([], some e)) ∨
    (∃ rs, ∀ (b : List Line) (numLine heap : Nat) (acc : List (Option (Record F))),
      ∃ numLine1 heap1, recordsLoop bits ParseFloat (a ++ b) numLine heap acc =
        recordsLoop bits ParseFloat b numLine1 heap1 (acc ++ rs)) := by
  induction a with
  | nil => exact Or.inr ⟨[], fun b numLine heap acc => ⟨numLine, heap, by simp⟩⟩
  | cons line rest ih =>
    cases line with
    | failed fs cause =>
      left
      intro b numLine heap acc
      cases cause <;> exact ⟨_, rfl⟩
    | fields fs =>
      by_cases h5 : fs.length = 5
      · rcases parseRecord_total bits ParseFloat fs with ⟨r, hr⟩ | ⟨e, he⟩
        · have hstep : ∀ (b : List Line) (numLine heap : Nat)
              (acc : List (Option (Record F))),
              recordsLoop bits ParseFloat (.fields fs :: rest ++ b) numLine heap acc =
                recordsLoop bits ParseFloat (rest ++ b) (numLine + 1) heap
                  (acc ++ [some r]) := by
            intro b numLine heap acc
            rw [List.cons_append,
              recordsLoop_cons_fields bits ParseFloat fs _ _ _ _ h5 (by rw [hr]), hr]
          rcases ih with hfail | ⟨rs, hrs⟩
          · left
            intro b numLine heap acc
            rw [hstep]
            exact hfail _ _ _ _
          · right
            refine ⟨some r :: rs, ?_⟩
            intro b numLine heap acc
            obtain ⟨n1, h1, hgo⟩ := hrs b (numLine + 1) heap (acc ++ [some r])
            refine ⟨n1, h1, ?_⟩
            rw [hstep, hgo]
            simp
        · left
          intro b numLine heap acc
          refine ⟨.wrapError "failed to parse record: " e, ?_⟩
          rw [List.cons_append, recordsLoop, csvRead_fields_eq 5 _ _ fs h5]
          simp only [he]
      · left
        intro b numLine heap acc
        refine ⟨.wrapError "failed to read CSV record: "
          (.ParseError heap (numLine + 1) (numLine + 1) 1 .ErrFieldCount), ?_⟩
        rw [List.cons_append, recordsLoop, csvRead_fields_ne 5 _ _ fs (by decide) h5]

/-! ## Lemmas on the station map -/

theorem StationMap.get_set_self (m : StationMap) (k : StationID) (v : Station) :
    (m.set k v).get k = some v := by
  simp [StationMap.get, StationMap.set, List.lookup]

theorem StationMap.get_filter_ne (m : StationMap) (k k1 : StationID) (h : k1 ≠ k) :
    List.lookup k1 (m.filter (fun e => decide (e.1 ≠ k))) = List.lookup k1 m := by
  induction m with
  | nil => rfl
  | cons e m ih =>
    obtain ⟨a, b⟩ := e
    simp only [ne_eq, decide_not] at ih
    by_cases hak : a = k
    · subst hak
      have hne : (k1 == a) = false := by simpa using h
      simp [List.filter, List.lookup, hne, ih]
    · by_cases hk1 : k1 = a
      · subst hk1
        simp [List.filter, List.lookup, hak]
      · have hne : (k1 == a) = false := by simpa using hk1
        simp [List.filter, List.lookup, hak, hne, ih]

theorem StationMap.get_set_ne (m : StationMap) (k k1 : StationID) (v : Station)
    (h : k1 ≠ k) : (m.set k v).get k1 = m.get k1 := by
  have hne : (k1 == k) = false := by simpa using h
  simp only [StationMap.get, StationMap.set, List.lookup, hne]
  exact StationMap.get_filter_ne m k k1 h

theorem StationMap.keys_set_nodup (m : StationMap) (k : StationID) (v : Station)
    (h : m.keys.Nodup) : (m.set k v).keys.Nodup := by
  unfold StationMap.keys StationMap.set
  rw [List.map_cons, List.nodup_cons]
  constructor
  · intro hmem
    obtain ⟨e, he, hk⟩ := List.mem_map.1 hmem
    have := (List.mem_filter.1 he).2
    simp at this
    exact this hk
  · exact (List.Nodup.sublist (List.Sublist.map _ (List.filter_sublist _)) h)

theorem StationMap.get_isSome_iff (m : StationMap) (k : StationID) :
    (m.get k).isSome ↔ k ∈ m.keys := by
  unfold StationMap.get StationMap.keys
  induction m with
  | nil => simp [List.lookup]
  | cons e m ih =>
    obtain ⟨a, b⟩ := e
    by_cases hk : k = a
    · subst hk; simp [List.lookup]
    · have hne : (k == a) = false := by simpa using hk
      simp [List.lookup, hne, ih, hk]

theorem StationMap.one_entry (m : StationMap) (k : StationID) (hnd : m.keys.Nodup)
    (hk : k ∈ m.keys) : (m.filter (fun e => decide (e.1 = k))).length = 1 := by
  unfold StationMap.keys at hnd hk
  induction m with
  | nil => simp at hk
  | cons e m ih =>
    obtain ⟨a, b⟩ := e
    rw [List.map_cons, List.nodup_cons] at hnd
    by_cases hak : a = k
    · subst hak
      have hnone : m.filter (fun e => decide (e.1 = a)) = [] := by
        rw [List.filter_eq_nil_iff]
        intro e he hea
        apply hnd.1
        have : e.1 = a := by simpa using hea
        exact List.mem_map.2 ⟨e, he, this⟩
      simp [List.filter, hnone]
    · have hk1 : k ∈ m.map Prod.fst := by
        rw [List.map_cons] at hk
        rcases List.mem_cons.1 hk with h | h
        · exact absurd h.symm hak
        · exact h
      simp [List.filter, hak, ih hnd.2 hk1]

/-! ## Lemmas on the station scan -/

/-- The guard of line 110 never holds for an error that `r.Read()` returns: the target of
`errors.Is` is a pointer to a new variable, no link of the error's chain is that pointer,
so the `continue` of line 113 is never reached. -/
theorem skipsRow_csvRead (n numLine heap : Nat) (line : Line) :
    skipsRow (csvRead n numLine heap line).2.1 (csvRead n numLine heap line).2.2 = false := by
  cases line with
  | fields fs =>
    by_cases h : n > 0 ∧ fs.length ≠ n
    · simp [csvRead, h, skipsRow, GoError.errorsIs]
    · simp only [csvRead, h, if_false, skipsRow]
  | failed fs cause =>
    cases cause <;> simp [csvRead, skipsRow, GoError.errorsIs]

theorem rowID_isSome (bits : Nat) (r : List String) (h : (rowID bits r).isSome) :
    ∃ n, ParseInt (r.getD 0 "") = .ok n ∧ rowID bits r = some (toInt bits n) := by
  unfold rowID at h ⊢
  cases r with
  | nil => simp at h
  | cons i0 t =>
    simp only [List.getD_cons_zero]
    cases hp : ParseInt i0 with
    | ok n => exact ⟨n, rfl, rfl⟩
    | error e => simp [hp] at h

/-- One iteration of the station loop on a 10-field row with a numeric first field. -/
theorem stationsLoop_cons_wellformed (bits : Nat) (r : List String) (rest : List Line)
    (numLine heap : Nat) (m : StationMap) (log : List LogEntry) (n : Int)
    (h10 : r.length = 10) (hn : ParseInt (r.getD 0 "") = .ok n) :
    stationsLoop bits (.fields r :: rest) numLine heap m log =
      stationsLoop bits rest (numLine + 1) heap
        (m.set (toInt bits n) (rowStation (toInt bits n) r))
        (if (m.get (toInt bits n)).isSome then log ++ [.duplicate (r.getD 3 "") n]
          else log) := by
  match r, h10 with
  | [a0, a1, a2, a3, a4, a5, a6, a7, a8, a9], _ =>
    simp only [List.getD_cons_zero] at hn
    rw [stationsLoop]
    by_cases hdup : (m.get (toInt bits n)).isSome
    · simp [csvRead, skipsRow, index, stationLiteral, hn, hdup, rowStation]
    · simp [csvRead, skipsRow, index, stationLiteral, hn, hdup, rowStation]

/-- A run of well-formed rows at the head of the feed is consumed without an error or a
panic, and leaves the map that `storeRow` builds from it. -/
theorem stationsLoop_wellformed_append (bits : Nat) (rows : List (List String))
    (rest : List Line) (h : ∀ r ∈ rows, r.length = 10 ∧ (rowID bits r).isSome) :
    ∀ (numLine heap : Nat) (m : StationMap) (log : List LogEntry),
      ∃ log1, stationsLoop bits (rows.map Line.fields ++ rest) numLine heap m log =
        stationsLoop bits rest (numLine + rows.length) heap
          (rows.foldl (storeRow bits) m) log1 := by
  induction rows with
  | nil => intro numLine heap m log; exact ⟨log, rfl⟩
  | cons r rows ih =>
    intro numLine heap m log
    obtain ⟨h10, hid⟩ := h r (List.mem_cons_self _ _)
    obtain ⟨n, hn, hk⟩ := rowID_isSome bits r hid
    rw [List.map_cons, List.cons_append,
      stationsLoop_cons_wellformed bits r _ _ _ _ _ n h10 hn]
    obtain ⟨log1, hl⟩ := ih (fun x hx => h x (List.mem_cons_of_mem _ hx)) (numLine + 1) heap
      (m.set (toInt bits n) (rowStation (toInt bits n) r))
      (if (m.get (toInt bits n)).isSome then log ++ [.duplicate (r.getD 3 "") n] else log)
    refine ⟨log1, ?_⟩
    rw [hl, List.foldl_cons, List.length_cons]
    simp only [storeRow, hk]
    congr 1
    omega

theorem stationsLoop_wellformed (bits : Nat) (rows : List (List String))
    (h : ∀ r ∈ rows, r.length = 10 ∧ (rowID bits r).isSome) :
    ∀ (numLine heap : Nat) (m : StationMap) (log : List LogEntry),
      ∃ log1, stationsLoop bits (rows.map Line.fields) numLine heap m log =
        (.returned (some (rows.foldl (storeRow bits) m)) none, log1) := by
  intro numLine heap m log
  obtain ⟨log1, hl⟩ := stationsLoop_wellformed_append bits rows [] h numLine heap m log
  rw [List.append_nil] at hl
  exact ⟨log1, by rw [hl]; rfl⟩

/-- A 10-field row whose first field `ParseInt` rejects ends the scan with an error and a
nil map when only well-formed rows precede it, whatever follows it. -/
theorem stationsLoop_bad_id_after_wellformed (bits : Nat) (rows : List (List String))
    (bad : List String) (rest : List Line) (e : GoError)
    (h : ∀ r ∈ rows, r.length = 10 ∧ (rowID bits r).isSome)
    (h10 : bad.length = 10) (hbad : ParseInt (bad.getD 0 "") = .error e)
    (numLine heap : Nat) (m : StationMap) (log : List LogEntry) :
    ∃ log1, stationsLoop bits (rows.map Line.fields ++ .fields bad :: rest) numLine heap m log =
      (.returned none (some (.wrapError "IDImpianto is not a numeric string: " e)), log1) := by
  obtain ⟨log1, hl⟩ :=
    stationsLoop_wellformed_append bits rows (.fields bad :: rest) h numLine heap m log
  refine ⟨log1, ?_⟩
  rw [hl]
  match bad, h10 with
  | [a0, a1, a2, a3, a4, a5, a6, a7, a8, a9], _ =>
    simp only [List.getD_cons_zero] at hbad
    rw [stationsLoop]
    simp [csvRead, skipsRow, index, hbad]

theorem foldl_storeRow_keys_nodup (bits : Nat) (rows : List (List String)) :
    ∀ m : StationMap, m.keys.Nodup → (rows.foldl (storeRow bits) m).keys.Nodup := by
  induction rows with
  | nil => intro m hm; exact hm
  | cons r rows ih =>
    intro m hm
    rw [List.foldl_cons]
    apply ih
    unfold storeRow
    cases rowID bits r with
    | none => exact hm
    | some k => exact StationMap.keys_set_nodup m k _ hm

/-- After a run of well-formed rows the entry of `k` is the station of the last row whose
identifier is `k`, or what it was before when there is no such row. -/
theorem foldl_storeRow_get (bits : Nat) (rows : List (List String)) (k : StationID) :
    ∀ m : StationMap, (rows.foldl (storeRow bits) m).get k =
      match (rows.filter (fun r => decide (rowID bits r = some k))).getLast? with
      | some r => some (rowStation k r)
      | none => m.get k := by
  induction rows with
  | nil => intro m; rfl
  | cons r rows ih =>
    intro m
    rw [List.foldl_cons, ih]
    by_cases hr : rowID bits r = some k
    · have hstore : (storeRow bits m r).get k = some (rowStation k r) := by
        simp only [storeRow, hr]
        exact StationMap.get_set_self m k _
      rw [List.filter_cons_of_pos (by simpa using hr)]
      cases hl : (rows.filter (fun r => decide (rowID bits r = some k))).getLast? with
      | none =>
        have hnil := List.getLast?_eq_none_iff.1 hl
        simp [hnil, hstore]
      | some r1 =>
        have hne : rows.filter (fun r => decide (rowID bits r = some k)) ≠ [] := by
          intro hnil; rw [hnil] at hl; simp at hl
        obtain ⟨x, xs, hx⟩ := List.exists_cons_of_ne_nil hne
        rw [hx] at hl
        rw [hx, List.getLast?_cons_cons, hl]
    · have hstore : (storeRow bits m r).get k = m.get k := by
        unfold storeRow
        cases hid : rowID bits r with
        | none => rfl
        | some k1 =>
          have hk : k ≠ k1 := by
            intro hkk; apply hr; rw [hid, hkk]
          exact StationMap.get_set_ne m k1 k _ hk
      rw [List.filter_cons_of_neg (by simpa using hr), hstore]

theorem rowStation_columns (k : StationID) (r : List String) (h10 : r.length = 10) :
    (rowStation k r).ID = k ∧ (rowStation k r).columns = r.tail := by
  match r, h10 with
  | [a0, a1, a2, a3, a4, a5, a6, a7, a8, a9], _ => exact ⟨rfl, rfl⟩

theorem foldl_storeRow_mem_keys (bits : Nat) (rows : List (List String)) (k : StationID) :
    k ∈ (rows.foldl (storeRow bits) []).keys ↔ k ∈ rows.filterMap (rowID bits) := by
  rw [← StationMap.get_isSome_iff, foldl_storeRow_get bits rows k [], List.mem_filterMap]
  cases hl : (rows.filter (fun r => decide (rowID bits r = some k))).getLast? with
  | none =>
    have hnil := List.getLast?_eq_none_iff.1 hl
    simp only [StationMap.get, List.lookup, Option.isSome_none, Bool.false_eq_true, false_iff]
    rintro ⟨r, hr, hk⟩
    have : r ∈ rows.filter (fun r => decide (rowID bits r = some k)) :=
      List.mem_filter.2 ⟨hr, by simpa using hk⟩
    rw [hnil] at this
    simp at this
  | some r =>
    have := List.mem_filter.1 (List.mem_of_getLast?_eq_some hl)
    simp only [Option.isSome_some, true_iff]
    exact ⟨r, this.1, by simpa using this.2⟩

/-- After a feed of well-formed rows the map has one entry per distinct identifier. -/
theorem foldl_storeRow_len (bits : Nat) (rows : List (List String)) :
    StationMap.len (rows.foldl (storeRow bits) []) =
      ((rows.filterMap (rowID bits)).dedup).length := by
  have hnd := foldl_storeRow_keys_nodup bits rows [] (by simp [StationMap.keys])
  have hperm : (rows.foldl (storeRow bits) []).keys.Perm (rows.filterMap (rowID bits)).dedup := by
    rw [List.perm_ext_iff_of_nodup hnd (List.nodup_dedup _)]
    intro k
    rw [foldl_storeRow_mem_keys, List.mem_dedup]
  have hlen := hperm.length_eq
  simpa [StationMap.keys, StationMap.len] using hlen

theorem ParseInt_error_shape (s : String) (e : GoError) (h : ParseInt s = .error e) :
    e = .NumError "ParseInt" s .ErrSyntax ∨ e = .NumError "ParseInt" s .ErrRange := by
  have hloop : ∀ (cs : List Char) (n : Nat) (e1 : GoError),
      parseUintLoop cs n = .error e1 → e1 = .ErrSyntax ∨ e1 = .ErrRange := by
    intro cs
    induction cs with
    | nil => intro n e1 h1; simp [parseUintLoop] at h1
    | cons c cs ih =>
      intro n e1 h1
      unfold parseUintLoop at h1
      split at h1
      · split at h1
        · simp only [Except.error.injEq] at h1; exact Or.inr h1.symm
        · simp only at h1
          split at h1
          · simp only [Except.error.injEq] at h1; exact Or.inr h1.symm
          · exact ih _ _ h1
      · simp only [Except.error.injEq] at h1; exact Or.inl h1.symm
  have huint : ∀ (cs : List Char) (e1 : GoError),
      ParseUint cs = .error e1 → e1 = .ErrSyntax ∨ e1 = .ErrRange := by
    intro cs e1 h1
    unfold ParseUint at h1
    split at h1
    · simp only [Except.error.injEq] at h1; exact Or.inl h1.symm
    · exact hloop _ _ _ h1
  unfold ParseInt at h
  split at h
  · simp only [Except.error.injEq] at h; exact Or.inl h.symm
  · simp only at h
    split at h
    · rename_i e1 he1
      simp only [Except.error.injEq] at h
      rcases huint _ _ he1 with h1 | h1
      · left; rw [← h, h1]
      · right; rw [← h, h1]
    · split at h
      · simp only [Except.error.injEq] at h; exact Or.inr h.symm
      · split at h
        · simp only [Except.error.injEq] at h; exact Or.inr h.symm
        · cases h

/-- Every error that the station loop returns is the wrapped `ParseInt` error of line 119,
and it comes with a nil map. -/
theorem stationsLoop_error_shape (bits : Nat) (lines : List Line) :
    ∀ (numLine heap : Nat) (m : StationMap) (log log1 : List LogEntry)
      (v : Option StationMap) (e : GoError),
      stationsLoop bits lines numLine heap m log = (.returned v (some e), log1) →
        v = none ∧ ∃ s, e = .wrapError "IDImpianto is not a numeric string: "
            (.NumError "ParseInt" s .ErrSyntax) ∨
          e = .wrapError "IDImpianto is not a numeric string: "
            (.NumError "ParseInt" s .ErrRange) := by
  induction lines with
  | nil =>
    intro numLine heap m log log1 v e h
    simp [stationsLoop] at h
  | cons line rest ih =>
    intro numLine heap m log log1 v e h
    rw [stationsLoop] at h
    simp only [skipsRow_csvRead, Bool.false_eq_true, if_false] at h
    split at h
    · cases h
    · rename_i i0 hi0
      split at h
      · rename_i ne hne
        simp only [Prod.mk.injEq, Outcome.returned.injEq, Option.some.injEq] at h
        refine ⟨h.1.1.symm, i0, ?_⟩
        rcases ParseInt_error_shape i0 ne hne with h1 | h1
        · left; rw [← h.1.2, h1]
        · right; rw [← h.1.2, h1]
      · split at h
        · cases h
        · split at h
          · cases h
          · exact ih _ _ _ _ _ _ _ h

/-- The station loop never logs the "Skipping" line. -/
theorem stationsLoop_never_skips (bits : Nat) (lines : List Line) :
    ∀ (numLine heap : Nat) (m : StationMap) (log : List LogEntry),
      LogEntry.skipping ∉ log →
        LogEntry.skipping ∉ (stationsLoop bits lines numLine heap m log).2 := by
  induction lines with
  | nil => intro numLine heap m log h; simpa [stationsLoop] using h
  | cons line rest ih =>
    intro numLine heap m log h
    rw [stationsLoop]
    simp only [skipsRow_csvRead, Bool.false_eq_true, if_false]
    split
    · exact h
    · split
      · exact h
      · split
        · exact h
        · rename_i log1 hlog1
          have hlog : LogEntry.skipping ∉ log1 := by
            split at hlog1
            · split at hlog1
              · cases hlog1
              · simp only [Except.ok.injEq] at hlog1
                rw [← hlog1]
                simp [h]
            · simp only [Except.ok.injEq] at hlog1
              rw [← hlog1]; exact h
          split
          · exact hlog
          · exact ih _ _ _ _ hlog

theorem csvRead_items (n numLine heap : Nat) (line : Line) :
    (csvRead n numLine heap line).1 = line.items := by
  cases line with
  | fields fs =>
    simp only [csvRead, Line.items]
    split <;> rfl
  | failed fs cause => cases cause <;> rfl

theorem index_getD (items : List String) (i : Nat) (h : i < items.length) :
    index items i = .ok (items.getD i "") := by
  simp [index, List.getD, List.getElem?_eq_getElem h]

theorem index_out (items : List String) (i : Nat) (h : items.length ≤ i) :
    index items i = .error ⟨i, items.length⟩ := by
  simp [index, List.getElem?_eq_none h]

theorem stationLiteral_ok (id : StationID) (items : List String) (h : 10 ≤ items.length) :
    stationLiteral id items = .ok (rowStation id items) := by
  rcases items with _ | ⟨a0, _ | ⟨a1, _ | ⟨a2, _ | ⟨a3, _ | ⟨a4, _ | ⟨a5, _ | ⟨a6,
    _ | ⟨a7, _ | ⟨a8, _ | ⟨a9, t⟩⟩⟩⟩⟩⟩⟩⟩⟩⟩
  all_goals first
    | (exfalso; simp only [List.length_cons, List.length_nil] at h; omega)
    | simp [stationLiteral, index, rowStation]

theorem stationLiteral_short (id : StationID) (items : List String) (h : items.length < 10) :
    ∃ p, stationLiteral id items = .error p := by
  rcases items with _ | ⟨a0, _ | ⟨a1, _ | ⟨a2, _ | ⟨a3, _ | ⟨a4, _ | ⟨a5, _ | ⟨a6,
    _ | ⟨a7, _ | ⟨a8, _ | ⟨a9, t⟩⟩⟩⟩⟩⟩⟩⟩⟩⟩
  all_goals first
    | exact ⟨_, rfl⟩
    | (exfalso; simp only [List.length_cons, List.length_nil] at h; omega)

/-- One iteration of the station loop, on any line: it panics (only on a line with fewer
than 10 fields), or it returns the `ParseInt` error of the first field, or it stores the
station built from the first ten fields (only on a line with at least 10 fields) and goes
on. Which of the three happens does not depend on the rest of the feed. -/
theorem stationsLoop_step (bits : Nat) (line : Line) (numLine heap : Nat) (m : StationMap)
    (log : List LogEntry) :
    (line.items.length < 10 ∧
      (line.items = [] ∨ ∃ n, ParseInt (line.items.getD 0 "") = .ok n) ∧
      ∃ p log1, ∀ rest, stationsLoop bits (line :: rest) numLine heap m log =
        (.panicked p, log1)) ∨
    (∃ e, line.items ≠ [] ∧ ParseInt (line.items.getD 0 "") = .error e ∧
      ∀ rest, stationsLoop bits (line :: rest) numLine heap m log =
        (.returned none (some (.wrapError "IDImpianto is not a numeric string: " e)), log)) ∨
    (∃ n heap1, 10 ≤ line.items.length ∧ ParseInt (line.items.getD 0 "") = .ok n ∧
      ∀ rest, stationsLoop bits (line :: rest) numLine heap m log =
        stationsLoop bits rest (numLine + 1) heap1
          (m.set (toInt bits n) (rowStation (toInt bits n) line.items))
          (if (m.get (toInt bits n)).isSome then
            log ++ [.duplicate (line.items.getD 3 "") n] else log)) := by
  have hitems := csvRead_items 10 (numLine + 1) heap line
  have hskip := skipsRow_csvRead 10 (numLine + 1) heap line
  rcases hcsv : csvRead 10 (numLine + 1) heap line with ⟨items, err, heap1⟩
  rw [hcsv] at hitems hskip
  simp only at hitems hskip
  subst hitems
  have hunfold : ∀ rest, stationsLoop bits (line :: rest) numLine heap m log =
      (match index line.items 0 with
        | .error p => (.panicked p, log)
        | .ok i0 =>
        match ParseInt i0 with
        | .error e =>
          (.returned none (some (.wrapError "IDImpianto is not a numeric string: " e)), log)
        | .ok idImpianto =>
        match (if (m.get (toInt bits idImpianto)).isSome then
            (match index line.items 3 with
              | .error p => Except.error p
              | .ok tipo => .ok (log ++ [LogEntry.duplicate tipo idImpianto]))
          else .ok log) with
        | .error p => (.panicked p, log)
        | .ok log1 =>
        match stationLiteral (toInt bits idImpianto) line.items with
        | .error p => (.panicked p, log1)
        | .ok station =>
          stationsLoop bits rest (numLine + 1) (if err.isSome then heap1 + 1 else heap1)
            (m.set (toInt bits idImpianto) station) log1) := by
    intro rest
    rw [stationsLoop, hcsv]
    simp only [hskip, Bool.false_eq_true, if_false]
  generalize line.items = items at hunfold ⊢
  rcases hnil : items with _ | ⟨i0, t⟩
  · left
    refine ⟨by simp, Or.inl rfl, ⟨0, 0⟩, log, fun rest => ?_⟩
    rw [hunfold, hnil]
    rfl
  · have h0 : index items 0 = .ok i0 := by rw [hnil]; simp [index]
    have hget : items.getD 0 "" = i0 := by rw [hnil]; rfl
    rw [← hnil]
    cases hp : ParseInt i0 with
    | error e =>
      right; left
      refine ⟨e, by rw [hnil]; simp, by rw [hget, hp], fun rest => ?_⟩
      rw [hunfold, h0]
      simp only [hp]
    | ok n =>
      by_cases h10 : 10 ≤ items.length
      · right; right
        refine ⟨n, (if err.isSome then heap1 + 1 else heap1), h10, by rw [hget, hp],
          fun rest => ?_⟩
        rw [hunfold, h0]
        simp only [hp, stationLiteral_ok _ items h10, index_getD items 3 (by omega)]
        by_cases hdup : (m.get (toInt bits n)).isSome
        · simp only [hdup, if_true]
        · simp only [hdup, Bool.false_eq_true, if_false]
      · left
        have hshort : items.length < 10 := by omega
        obtain ⟨p, hlit⟩ := stationLiteral_short (toInt bits n) items hshort
        refine ⟨hshort, Or.inr ⟨n, by rw [hget, hp]⟩, ?_⟩
        by_cases hdup : (m.get (toInt bits n)).isSome
        · by_cases h3 : 3 < items.length
          · refine ⟨p, log ++ [.duplicate (items.getD 3 "") n], fun rest => ?_⟩
            rw [hunfold, h0]
            simp only [hp, hdup, if_true, index_getD items 3 h3, hlit]
          · refine ⟨⟨3, items.length⟩, log, fun rest => ?_⟩
            rw [hunfold, h0]
            simp only [hp, hdup, if_true, index_out items 3 (by omega)]
        · refine ⟨p, log, fun rest => ?_⟩
          rw [hunfold, h0]
          simp only [hp, hdup, Bool.false_eq_true, if_false, hlit]

/-- On a feed whose lines all have at least 10 fields the station loop does not panic. -/
theorem stationsLoop_no_panic (bits : Nat) (lines : List Line)
    (h : ∀ line ∈ lines, 10 ≤ line.items.length) :
    ∀ (numLine heap : Nat) (m : StationMap) (log : List LogEntry),
      ∃ v e log1, stationsLoop bits lines numLine heap m log = (.returned v e, log1) := by
  induction lines with
  | nil => intro numLine heap m log; exact ⟨some m, none, log, rfl⟩
  | cons line rest ih =>
    intro numLine heap m log
    rcases stationsLoop_step bits line numLine heap m log with
      ⟨hshort, _, _⟩ | ⟨e, _, _, herr⟩ | ⟨n, heap1, _, _, hgo⟩
    · have := h line (List.mem_cons_self _ _)
      omega
    · exact ⟨none, _, log, herr rest⟩
    · rw [hgo rest]
      exact ih (fun l hl => h l (List.mem_cons_of_mem _ hl)) _ _ _ _

theorem StationMap.set_keyed (m : StationMap) (k : StationID) (v : Station)
    (hm : KeyedByID m) (hv : v.ID = k) : KeyedByID (m.set k v) := by
  intro e he
  unfold StationMap.set at he
  rcases List.mem_cons.1 he with rfl | he
  · exact hv
  · exact hm e (List.mem_filter.1 he).1

/-- The station loop keeps the invariant that every entry is stored under its own `ID`. -/
theorem stationsLoop_keyed (bits : Nat) (lines : List Line) :
    ∀ (numLine heap : Nat) (m m1 : StationMap) (log log1 : List LogEntry)
      (e : Option GoError), KeyedByID m →
      stationsLoop bits lines numLine heap m log = (.returned (some m1) e, log1) →
        KeyedByID m1 := by
  induction lines with
  | nil =>
    intro numLine heap m m1 log log1 e hm h
    simp only [stationsLoop, Prod.mk.injEq, Outcome.returned.injEq, Option.some.injEq] at h
    rw [← h.1.1]; exact hm
  | cons line rest ih =>
    intro numLine heap m m1 log log1 e hm h
    rcases stationsLoop_step bits line numLine heap m log with
      ⟨_, _, p, l1, hpanic⟩ | ⟨e1, _, _, herr⟩ | ⟨n, heap1, _, _, hgo⟩
    · rw [hpanic rest] at h; simp at h
    · rw [herr rest] at h; simp at h
    · rw [hgo rest] at h
      exact ih _ _ _ _ _ _ _
        (StationMap.set_keyed m (toInt bits n) (rowStation (toInt bits n) line.items) hm rfl) h

/-- The map and the log that the station loop returns on a feed are its state after the
lines of that feed when more lines follow. -/
theorem stationsLoop_prefix (bits : Nat) (pre : List Line) :
    ∀ (numLine heap : Nat) (m m1 : StationMap) (log log1 : List LogEntry),
      stationsLoop bits pre numLine heap m log = (.returned (some m1) none, log1) →
      ∀ post, ∃ heap1, stationsLoop bits (pre ++ post) numLine heap m log =
        stationsLoop bits post (numLine + pre.length) heap1 m1 log1 := by
  induction pre with
  | nil =>
    intro numLine heap m m1 log log1 h post
    simp only [stationsLoop, Prod.mk.injEq, Outcome.returned.injEq, Option.some.injEq,
      and_true] at h
    exact ⟨heap, by rw [← h.1, ← h.2]; rfl⟩
  | cons line rest ih =>
    intro numLine heap m m1 log log1 h post
    rcases stationsLoop_step bits line numLine heap m log with
      ⟨_, _, p, l1, hpanic⟩ | ⟨e1, _, _, herr⟩ | ⟨n, heap1, _, _, hgo⟩
    · rw [hpanic rest] at h; simp at h
    · rw [herr rest] at h; simp at h
    · rw [hgo rest] at h
      obtain ⟨heap2, h2⟩ := ih _ _ _ _ _ _ h post
      refine ⟨heap2, ?_⟩
      rw [List.cons_append, hgo (rest ++ post), h2, List.length_cons]
      congr 1
      omega

theorem rowID_mem_map_iff (bits : Nat) (earlier : List (List String)) (k : StationID) :
    some k ∈ earlier.map (rowID bits) ↔ k ∈ earlier.filterMap (rowID bits) := by
  simp only [List.mem_map, List.mem_filterMap]

/-- On well-formed rows, started from the map built from the rows `earlier`, the station
loop returns the map built from all rows and logs the duplicate diagnostics of the
specification. -/
theorem stationsLoop_wellformed_log (bits : Nat) (rows : List (List String))
    (h : ∀ r ∈ rows, r.length = 10 ∧ (rowID bits r).isSome) :
    ∀ (earlier : List (List String)) (numLine heap : Nat) (log : List LogEntry),
      stationsLoop bits (rows.map Line.fields) numLine heap
          (earlier.foldl (storeRow bits) []) log =
        (.returned (some ((earlier ++ rows).foldl (storeRow bits) [])) none,
          log ++ duplicateLog bits earlier rows) := by
  induction rows with
  | nil =>
    intro earlier numLine heap log
    simp [stationsLoop, duplicateLog]
  | cons r rows ih =>
    intro earlier numLine heap log
    obtain ⟨h10, hid⟩ := h r (List.mem_cons_self _ _)
    obtain ⟨n, hn, hk⟩ := rowID_isSome bits r hid
    have hmap : (earlier.foldl (storeRow bits) []).set (toInt bits n)
        (rowStation (toInt bits n) r) = (earlier ++ [r]).foldl (storeRow bits) [] := by
      rw [List.foldl_append]
      simp [storeRow, hk]
    have hcond : ((earlier.foldl (storeRow bits) []).get (toInt bits n)).isSome = true ↔
        rowID bits r ∈ earlier.map (rowID bits) := by
      rw [StationMap.get_isSome_iff, foldl_storeRow_mem_keys, hk, rowID_mem_map_iff]
    have hint : rowInt r = n := by unfold rowInt; rw [hn]
    rw [List.map_cons, stationsLoop_cons_wellformed bits r _ _ _ _ _ n h10 hn, hmap,
      ih (fun x hx => h x (List.mem_cons_of_mem _ hx)) (earlier ++ [r]), duplicateLog, hint]
    by_cases hc : rowID bits r ∈ earlier.map (rowID bits)
    · simp [hc, hcond.2 hc]
    · have hnc : ¬ ((earlier.foldl (storeRow bits) []).get (toInt bits n)).isSome = true :=
        fun hx => hc (hcond.1 hx)
      simp [hc, hnc]

theorem dedup_length_concat (l : List StationID) (k : StationID) :
    ((l ++ [k]).dedup).length = if k ∈ l then l.dedup.length else l.dedup.length + 1 := by
  rw [← List.card_toFinset, ← List.card_toFinset, List.toFinset_append]
  by_cases hk : k ∈ l
  · have hsub : [k].toFinset ⊆ l.toFinset := by
      intro x hx
      simp only [List.toFinset_cons, List.toFinset_nil, insert_emptyc_eq,
        Finset.mem_singleton] at hx
      rw [hx]; exact List.mem_toFinset.2 hk
    rw [if_pos hk, Finset.union_eq_left.2 hsub]
  · rw [if_neg hk]
    have hdisj : Disjoint l.toFinset [k].toFinset := by
      rw [Finset.disjoint_left]
      intro x hx hx1
      simp only [List.toFinset_cons, List.toFinset_nil, insert_emptyc_eq,
        Finset.mem_singleton] at hx1
      rw [hx1] at hx
      exact hk (List.mem_toFinset.1 hx)
    rw [Finset.card_union_of_disjoint hdisj]
    simp

/-- The duplicate diagnostics and the distinct identifiers together account for every row:
each row either brings a new identifier or gives one diagnostic. -/
theorem duplicateLog_length (bits : Nat) (rows : List (List String))
    (h : ∀ r ∈ rows, (rowID bits r).isSome) :
    ∀ earlier : List (List String),
      (duplicateLog bits earlier rows).length +
          (((earlier ++ rows).filterMap (rowID bits)).dedup).length =
        rows.length + ((earlier.filterMap (rowID bits)).dedup).length := by
  induction rows with
  | nil => intro earlier; simp [duplicateLog]
  | cons r rows ih =>
    intro earlier
    obtain ⟨n, hn, hk⟩ := rowID_isSome bits r (h r (List.mem_cons_self _ _))
    have hih := ih (fun x hx => h x (List.mem_cons_of_mem _ hx)) (earlier ++ [r])
    have hfm : (earlier ++ [r]).filterMap (rowID bits) =
        earlier.filterMap (rowID bits) ++ [toInt bits n] := by
      simp [List.filterMap_append, hk]
    rw [hfm, dedup_length_concat] at hih
    rw [List.append_assoc, List.singleton_append] at hih
    have hiff := rowID_mem_map_iff bits earlier (toInt bits n)
    rw [duplicateLog, List.length_append, List.length_cons, hk]
    by_cases hc : toInt bits n ∈ earlier.filterMap (rowID bits)
    · have hc1 : some (toInt bits n) ∈ earlier.map (rowID bits) := hiff.2 hc
      simp only [hc, if_true] at hih
      simp only [hc1, if_true, List.length_singleton]
      omega
    · have hc1 : ¬ some (toInt bits n) ∈ earlier.map (rowID bits) := fun hx => hc (hiff.1 hx)
      simp only [hc, if_false] at hih
      simp only [hc1, if_false, List.length_nil]
      omega

/-! ## Lemmas on the header skip -/

/-- A line that ends within the buffer is consumed whole, terminator included. -/
theorem ReadLine_short (size : Nat) (l rest : List UInt8) (hl : (10 : UInt8) ∉ l)
    (hlen : l.length < size) :
    ∃ line, ReadLine size (l ++ 10 :: rest) = (line, false, none, rest) := by
  have htake : (10 : UInt8) ∈ (l ++ 10 :: rest).take size := by
    rw [List.take_append_eq_append_take]
    apply List.mem_append_right
    have : size - l.length = (size - l.length - 1) + 1 := by omega
    rw [this, List.take_succ_cons]
    exact List.mem_cons_self _ _
  have htw : (l ++ 10 :: rest).takeWhile (fun b => decide (b ≠ 10)) = l := by
    rw [List.takeWhile_append_of_pos (by
      intro a ha
      have hne : a ≠ 10 := fun h => hl (h ▸ ha)
      simpa using hne)]
    simp [List.takeWhile]
  have hdw : (l ++ 10 :: rest).dropWhile (fun b => decide (b ≠ 10)) = 10 :: rest := by
    rw [List.dropWhile_append_of_pos (by
      intro a ha
      have hne : a ≠ 10 := fun h => hl (h ▸ ha)
      simpa using hne)]
    simp [List.dropWhile]
  have hslice : ReadSlice size (l ++ 10 :: rest) = (l ++ [10], none, rest) := by
    unfold ReadSlice
    rw [if_pos htake, htw, hdw]
    rfl
  unfold ReadLine
  rw [hslice]
  simp only [List.length_append, List.length_singleton, Nat.add_one_ne_zero, if_false,
    List.getLast?_append, List.getLast?_singleton, Option.or_some, if_true]
  split <;> exact ⟨_, rfl⟩

/-- A line that does not end within the buffer is cut: `ReadLine` hands out the first
`size` bytes with `isPrefix` set and leaves the rest of the line unread. -/
theorem ReadLine_long (size : Nat) (pre rest : List UInt8) (hl : (10 : UInt8) ∉ pre)
    (hlen : pre.length = size) (hcr : pre.getLast? ≠ some 13) :
    ReadLine size (pre ++ rest) = (pre, true, none, rest) := by
  have htake : (pre ++ rest).take size = pre := by
    rw [← hlen]; exact List.take_left' rfl
  have hdrop : (pre ++ rest).drop size = rest := by
    rw [← hlen]; exact List.drop_left' rfl
  have hslice : ReadSlice size (pre ++ rest) = (pre, some .ErrBufferFull, rest) := by
    unfold ReadSlice
    rw [htake, hdrop, if_neg hl, if_neg (by simp [hlen])]
  unfold ReadLine
  rw [hslice]
  simp only [hcr, if_false]

/-- When each of the two header lines ends within the buffer, the header skip leaves exactly
the bytes after the second line terminator. -/
theorem skipHeader_short_lines (size : Nat) (l1 l2 data : List UInt8)
    (h1 : (10 : UInt8) ∉ l1) (h2 : (10 : UInt8) ∉ l2)
    (hlen1 : l1.length < size) (hlen2 : l2.length < size) :
    skipHeader size (l1 ++ 10 :: (l2 ++ 10 :: data)) = .ok data := by
  obtain ⟨line1, hr1⟩ := ReadLine_short size l1 (l2 ++ 10 :: data) h1 hlen1
  obtain ⟨line2, hr2⟩ := ReadLine_short size l2 data h2 hlen2
  unfold skipHeader
  rw [hr1]
  simp only [hr2]

/-! ## Lemmas on `time.Parse` -/

theorem digitsVal_one (a : Char) : digitsVal [a] = digitVal a := by
  simp [digitsVal]

theorem digitsVal_two (a b : Char) : digitsVal [a, b] = digitVal a * 10 + digitVal b := by
  simp [digitsVal]

theorem getnum_numeral (ds rest : List Char) (fixed : Bool) (hd : allDigits ds)
    (hlen : ds.length = 1 ∨ ds.length = 2) (hfixed : fixed = true → ds.length = 2)
    (hrest : ds.length = 1 → ∀ c, rest.head? = some c → c.isDigit = false) :
    getnum (ds ++ rest) fixed = some (digitsVal ds, rest) := by
  rcases hlen with h1 | h2
  · match ds, h1 with
    | [a], _ =>
      have ha : a.isDigit = true := hd a (List.mem_singleton_self a)
      have hf : fixed = false := by
        cases fixed with
        | false => rfl
        | true => exact absurd (hfixed rfl) (by simp)
      subst hf
      cases rest with
      | nil => simp [getnum, ha, digitsVal_one]
      | cons c1 rest1 =>
        have hc1 : c1.isDigit = false := hrest rfl c1 rfl
        simp [getnum, ha, hc1, digitsVal_one]
  · match ds, h2 with
    | [a, b], _ =>
      have ha : a.isDigit = true := hd a (by simp)
      have hb : b.isDigit = true := hd b (by simp)
      simp [getnum, ha, hb, digitsVal_two]

theorem getnum_inv (s rest : List Char) (fixed : Bool) (n : Nat)
    (h : getnum s fixed = some (n, rest)) :
    ∃ ds, allDigits ds ∧ (ds.length = 1 ∨ ds.length = 2) ∧ (fixed = true → ds.length = 2) ∧
      s = ds ++ rest ∧ n = digitsVal ds := by
  unfold getnum at h
  split at h
  · exact absurd h (by simp)
  · rename_i c0 r0
    split at h
    · exact absurd h (by simp)
    · rename_i hc0
      have hc0 : c0.isDigit = true := by simpa using hc0
      split at h
      · split at h
        · exact absurd h (by simp)
        · rename_i hfx
          simp only [Option.some.injEq, Prod.mk.injEq] at h
          refine ⟨[c0], ?_, Or.inl rfl, ?_, ?_, ?_⟩
          · intro c hc; rw [List.mem_singleton.1 hc]; exact hc0
          · intro hf; exact absurd hf hfx
          · rw [← h.2]; rfl
          · rw [digitsVal_one]; exact h.1.symm
      · rename_i c1 r1
        split at h
        · split at h
          · exact absurd h (by simp)
          · rename_i hfx
            simp only [Option.some.injEq, Prod.mk.injEq] at h
            refine ⟨[c0], ?_, Or.inl rfl, ?_, ?_, ?_⟩
            · intro c hc; rw [List.mem_singleton.1 hc]; exact hc0
            · intro hf; exact absurd hf hfx
            · rw [← h.2]; rfl
            · rw [digitsVal_one]; exact h.1.symm
        · rename_i hc1
          have hc1 : c1.isDigit = true := by simpa using hc1
          simp only [Option.some.injEq, Prod.mk.injEq] at h
          refine ⟨[c0, c1], ?_, Or.inr rfl, fun _ => rfl, ?_, ?_⟩
          · intro c hc
            rcases List.mem_cons.1 hc with rfl | hc
            · exact hc0
            · rw [List.mem_singleton.1 hc]; exact hc1
          · rw [← h.2]; rfl
          · rw [digitsVal_two]; exact h.1.symm

theorem skip1_char (c : Char) (rest : List Char) (hc : c ≠ ' ') :
    skip1 (c :: rest) c = some rest := by
  simp [skip1, hc]

theorem skip1_char_inv (c : Char) (v rest : List Char) (hc : c ≠ ' ')
    (h : skip1 v c = some rest) : v = c :: rest := by
  unfold skip1 at h
  rw [if_neg hc] at h
  split at h
  · exact absurd h (by simp)
  · rename_i a as
    split at h
    · exact absurd h (by simp)
    · rename_i hne
      have ha : a = c := by simpa using hne
      simp only [Option.some.injEq] at h
      rw [ha, h]

theorem cutspace_replicate (n : Nat) (rest : List Char) (hrest : rest.head? ≠ some ' ') :
    cutspace (List.replicate n ' ' ++ rest) = rest := by
  induction n with
  | zero =>
    cases rest with
    | nil => rfl
    | cons c r =>
      have hc : c ≠ ' ' := by simpa using hrest
      simp [cutspace, hc]
  | succ n ih =>
    rw [List.replicate_succ, List.cons_append, cutspace, if_pos rfl, ih]

theorem cutspace_inv (v : List Char) :
    ∃ n, v = List.replicate n ' ' ++ cutspace v := by
  induction v with
  | nil => exact ⟨0, rfl⟩
  | cons c r ih =>
    by_cases hc : c = ' '
    · obtain ⟨n, hn⟩ := ih
      refine ⟨n + 1, ?_⟩
      rw [cutspace, if_pos hc, List.replicate_succ, List.cons_append, ← hn, hc]
    · exact ⟨0, by rw [cutspace, if_neg hc]; rfl⟩

theorem skip1_space (n : Nat) (rest : List Char) (hn : 1 ≤ n)
    (hrest : rest.head? ≠ some ' ') :
    skip1 (List.replicate n ' ' ++ rest) ' ' = some rest := by
  obtain ⟨k, rfl⟩ : ∃ k, n = k + 1 := ⟨n - 1, by omega⟩
  have hcut := cutspace_replicate (k + 1) rest hrest
  rw [List.replicate_succ, List.cons_append] at hcut ⊢
  simp [skip1, hcut]

theorem skip1_space_inv (v rest : List Char) (hne : rest ≠ [])
    (h : skip1 v ' ' = some rest) :
    ∃ n, 1 ≤ n ∧ v = List.replicate n ' ' ++ rest := by
  unfold skip1 at h
  rw [if_pos rfl] at h
  split at h
  · simp only [Option.some.injEq] at h
    exact absurd h.symm hne
  · rename_i a as
    split at h
    · exact absurd h (by simp)
    · rename_i ha
      have ha : a = ' ' := by simpa using ha
      simp only [Option.some.injEq] at h
      obtain ⟨n, hn⟩ := cutspace_inv (a :: as)
      rw [h] at hn
      refine ⟨n, ?_, hn⟩
      rcases n with _ | n
      · exfalso
        simp only [List.replicate_zero, List.nil_append] at hn
        rw [← hn, cutspace, if_pos ha] at h
        have hlen := congrArg List.length h
        obtain ⟨k, hk⟩ := cutspace_inv as
        have hk2 := congrArg List.length hk
        simp only [List.length_append, List.length_replicate, List.length_cons] at hlen hk2
        omega
      · omega

theorem getyear_numeral (ys rest : List Char) (hd : allDigits ys) (hlen : ys.length = 4) :
    getyear (ys ++ rest) = some (digitsVal ys, rest) := by
  match ys, hlen with
  | [a, b, c, d], _ =>
    have ha : a.isDigit = true := hd a (by simp)
    have hb : b.isDigit = true := hd b (by simp)
    have hc : c.isDigit = true := hd c (by simp)
    have hd1 : d.isDigit = true := hd d (by simp)
    simp [getyear, ha, hb, hc, hd1]

theorem getyear_inv (v rest : List Char) (y : Nat) (h : getyear v = some (y, rest)) :
    ∃ ys, allDigits ys ∧ ys.length = 4 ∧ v = ys ++ rest ∧ y = digitsVal ys := by
  unfold getyear at h
  split at h
  · rename_i a b c d r
    split at h
    · rename_i hdig
      simp only [Option.some.injEq, Prod.mk.injEq] at h
      refine ⟨[a, b, c, d], ?_, rfl, ?_, h.1.symm⟩
      · intro x hx
        simp only [List.mem_cons, List.mem_singleton, List.not_mem_nil, or_false] at hx
        rcases hx with rfl | rfl | rfl | rfl
        · exact hdig.1
        · exact hdig.2.1
        · exact hdig.2.2.1
        · exact hdig.2.2.2
      · rw [← h.2]; rfl
    · exact absurd h (by simp)
  · exact absurd h (by simp)

theorem takeWhile_allDigits (ds : List Char) (h : allDigits ds) :
    ds.takeWhile Char.isDigit = ds ∧ ds.dropWhile Char.isDigit = [] := by
  induction ds with
  | nil => exact ⟨rfl, rfl⟩
  | cons c r ih =>
    have hc : c.isDigit = true := h c (List.mem_cons_self _ _)
    have hr := ih (fun x hx => h x (List.mem_cons_of_mem _ hx))
    simp [List.takeWhile, List.dropWhile, hc, hr.1, hr.2]

theorem dropWhile_nil_allDigits (ds : List Char) (h : ds.dropWhile Char.isDigit = []) :
    allDigits ds := by
  induction ds with
  | nil => intro c hc; simp at hc
  | cons c r ih =>
    by_cases hc : c.isDigit = true
    · rw [List.dropWhile, hc] at h
      intro x hx
      rcases List.mem_cons.1 hx with rfl | hx
      · exact hc
      · exact ih h x hx
    · have hc1 : c.isDigit = false := by simpa using hc
      rw [List.dropWhile, hc1] at h
      exact absurd h (by simp)

theorem getfrac_none : getfrac [] = (fracNanos [], []) := by
  simp [getfrac, fracNanos, digitsVal]

theorem getfrac_some (c : Char) (ds : List Char) (hc : c = '.' ∨ c = ',') (hne : ds ≠ [])
    (hd : allDigits ds) : getfrac (c :: ds) = (fracNanos (c :: ds), []) := by
  obtain ⟨d, r, rfl⟩ := List.exists_cons_of_ne_nil hne
  have hd0 : d.isDigit = true := hd d (List.mem_cons_self _ _)
  have hr := takeWhile_allDigits r (fun x hx => hd x (List.mem_cons_of_mem _ hx))
  simp [getfrac, hc, hd0, hr.1, hr.2, fracNanos]

theorem getfrac_inv (v : List Char) (ns : Nat) (h : getfrac v = (ns, [])) :
    (v = [] ∨ ∃ c ds, v = c :: ds ∧ (c = '.' ∨ c = ',') ∧ ds ≠ [] ∧ allDigits ds) ∧
      ns = fracNanos v := by
  unfold getfrac at h
  split at h
  · rename_i p d r
    split at h
    · rename_i hsep
      simp only [Prod.mk.injEq] at h
      have hr := dropWhile_nil_allDigits r h.2
      have hall : allDigits (d :: r) := by
        intro x hx
        rcases List.mem_cons.1 hx with rfl | hx
        · exact hsep.2
        · exact hr x hx
      refine ⟨Or.inr ⟨p, d :: r, rfl, hsep.1, by simp, hall⟩, ?_⟩
      rw [← h.1, (takeWhile_allDigits r hr).1]
      simp [fracNanos]
    · simp only [Prod.mk.injEq] at h
      exact absurd h.2 (by simp)
  · simp only [Prod.mk.injEq] at h
    obtain ⟨h1, h2⟩ := h
    subst h2
    exact ⟨Or.inl rfl, by rw [← h1]; simp [fracNanos, digitsVal]⟩

theorem isDigit_ne (c d : Char) (hc : c.isDigit = true) (hd : d.isDigit = false) : c ≠ d := by
  intro h; rw [h, hd] at hc; exact absurd hc (by simp)

theorem head_digit_not_space (ds rest : List Char) (hd : allDigits ds) (hne : ds ≠ []) :
    (ds ++ rest).head? ≠ some ' ' := by
  obtain ⟨d, r, rfl⟩ := List.exists_cons_of_ne_nil hne
  have hd0 : d.isDigit = true := hd d (List.mem_cons_self _ _)
  simp only [List.cons_append, List.head?_cons, ne_eq, Option.some.injEq]
  exact isDigit_ne d ' ' hd0 (by decide)

theorem ne_nil_of_length_one_or_two (ds : List Char) (h : ds.length = 1 ∨ ds.length = 2) :
    ds ≠ [] := by
  intro hnil; rw [hnil] at h; simp at h

/-- A text of the accepted shape that denotes a valid date and time parses to that time. -/
theorem timeParse_of_text (s : String) (t : TimeText) (hshape : t.shape) (hvalid : t.valid)
    (hs : s.data = t.render) : timeParse s = .ok t.time := by
  obtain ⟨⟨hday, hdayl⟩, ⟨hmon, hmonl⟩, ⟨hyear, hyearl⟩, hsp, ⟨hhour, hhourl⟩,
    ⟨hmin, hminl⟩, ⟨hsec, hsecl⟩, hfrac⟩ := hshape
  obtain ⟨⟨hm1, hm12⟩, ⟨hd1, hdmax⟩, hh, hmi, hse⟩ := hvalid
  have hsep : ∀ (c : Char) (r : List Char), c.isDigit = false →
      ∀ x, (c :: r).head? = some x → x.isDigit = false := by
    intro c r hc x hx
    simp only [List.head?_cons, Option.some.injEq] at hx
    rw [← hx]; exact hc
  have h1 := getnum_numeral t.day ('/' :: (t.month ++ '/' :: (t.year ++
    (List.replicate t.spaces ' ' ++ (t.hour ++ ':' :: (t.min ++ ':' :: (t.sec ++ t.frac)))))))
    false hday hdayl (by simp) (fun _ => hsep '/' _ (by decide))
  have h3 := getnum_numeral t.month ('/' :: (t.year ++
    (List.replicate t.spaces ' ' ++ (t.hour ++ ':' :: (t.min ++ ':' :: (t.sec ++ t.frac))))))
    false hmon hmonl (by simp) (fun _ => hsep '/' _ (by decide))
  have h5 := getyear_numeral t.year
    (List.replicate t.spaces ' ' ++ (t.hour ++ ':' :: (t.min ++ ':' :: (t.sec ++ t.frac))))
    hyear hyearl
  have h6 := skip1_space t.spaces (t.hour ++ ':' :: (t.min ++ ':' :: (t.sec ++ t.frac))) hsp
    (head_digit_not_space _ _ hhour (ne_nil_of_length_one_or_two _ hhourl))
  have h7 := getnum_numeral t.hour (':' :: (t.min ++ ':' :: (t.sec ++ t.frac)))
    false hhour hhourl (by simp) (fun _ => hsep ':' _ (by decide))
  have h9 := getnum_numeral t.min (':' :: (t.sec ++ t.frac))
    true hmin (Or.inr hminl) (fun _ => hminl) (fun h => by omega)
  have h11 := getnum_numeral t.sec t.frac
    true hsec (Or.inr hsecl) (fun _ => hsecl) (fun h => by omega)
  have h12 : getfrac t.frac = (fracNanos t.frac, []) := by
    rcases hfrac with h0 | ⟨c, ds, hc, hcsep, hne, hds⟩
    · rw [h0]; exact getfrac_none
    · rw [hc]; exact getfrac_some c ds hcsep hne hds
  have hmrange : ¬ (digitsVal t.month ≤ 0 ∨ 12 < digitsVal t.month) := by omega
  have hdrange : ¬ (digitsVal t.day < 1 ∨
      digitsVal t.day > daysIn (digitsVal t.month) (digitsVal t.year)) := by omega
  unfold timeParse
  rw [hs]
  simp only [TimeText.render, h1, h3, h5, h6, h7, h9, h11, h12,
    skip1_char '/' _ (by decide), skip1_char ':' _ (by decide), hmrange, hdrange,
    if_false, Nat.not_le.2 hh, Nat.not_le.2 hmi, Nat.not_le.2 hse, ne_eq, not_true_eq_false,
    TimeText.time]

/-- Every text that `time.Parse` accepts has the shape of a `TimeText` that denotes a valid
date and time, and the result is the time it denotes. -/
theorem timeParse_inv (s : String) (T : Time) (h : timeParse s = .ok T) :
    ∃ t : TimeText, t.shape ∧ t.valid ∧ s.data = t.render ∧ T = t.time := by
  unfold timeParse at h
  split at h
  · cases h
  rename_i day v1 h1
  split at h
  · cases h
  rename_i v2 h2
  split at h
  · cases h
  rename_i month v3 h3
  split at h
  · cases h
  rename_i hmrange
  split at h
  · cases h
  rename_i v4 h4
  split at h
  · cases h
  rename_i year v5 h5
  split at h
  · cases h
  rename_i v6 h6
  split at h
  · cases h
  rename_i hour v7 h7
  split at h
  · cases h
  rename_i hhrange
  split at h
  · cases h
  rename_i v8 h8
  split at h
  · cases h
  rename_i min v9 h9
  split at h
  · cases h
  rename_i hminrange
  split at h
  · cases h
  rename_i v10 h10
  split at h
  · cases h
  rename_i sec v11 h11
  split at h
  · cases h
  rename_i hsrange
  split at h
  rename_i nsec v12 h12
  split at h
  · cases h
  rename_i hextra
  split at h
  · cases h
  rename_i hdrange
  have hv12 : v12 = [] := by simpa using hextra
  subst hv12
  obtain ⟨ds, hds, hdsl, -, hs1, hdayv⟩ := getnum_inv _ _ _ _ h1
  have hs2 := skip1_char_inv '/' _ _ (by decide) h2
  obtain ⟨ms, hms, hmsl, -, hs3, hmonv⟩ := getnum_inv _ _ _ _ h3
  have hs4 := skip1_char_inv '/' _ _ (by decide) h4
  obtain ⟨ys, hys, hysl, hs5, hyearv⟩ := getyear_inv _ _ _ h5
  obtain ⟨hs', hhs, hhsl, -, hs7, hhourv⟩ := getnum_inv _ _ _ _ h7
  have hv6 : v6 ≠ [] := by
    rw [hs7]
    intro hnil
    exact ne_nil_of_length_one_or_two _ hhsl (List.append_eq_nil.1 hnil).1
  obtain ⟨n, hn, hs6⟩ := skip1_space_inv _ _ hv6 h6
  have hs8 := skip1_char_inv ':' _ _ (by decide) h8
  obtain ⟨mins, hmins, -, hminsl, hs9, hminv⟩ := getnum_inv _ _ _ _ h9
  have hs10 := skip1_char_inv ':' _ _ (by decide) h10
  obtain ⟨ss, hss, -, hssl, hs11, hsecv⟩ := getnum_inv _ _ _ _ h11
  obtain ⟨hfrac, hnsec⟩ := getfrac_inv _ _ h12
  refine ⟨⟨ds, ms, ys, n, hs', mins, ss, v11⟩,
    ⟨⟨hds, hdsl⟩, ⟨hms, hmsl⟩, ⟨hys, hysl⟩, hn, ⟨hhs, hhsl⟩, ⟨hmins, hminsl rfl⟩,
      ⟨hss, hssl rfl⟩, hfrac⟩, ?_, ?_, ?_⟩
  · simp only [TimeText.valid, ← hdayv, ← hmonv, ← hyearv, ← hhourv, ← hminv, ← hsecv]
    omega
  · simp only [TimeText.render]
    rw [hs1, hs2, hs3, hs4, hs5, hs6, hs7, hs8, hs9, hs10, hs11]
  · simp only [Except.ok.injEq] at h
    simp only [TimeText.time, ← hdayv, ← hmonv, ← hyearv, ← hhourv, ← hminv, ← hsecv, ← hnsec]
    exact h.symm

/-! ## Lemmas on `strconv.ParseInt` -/

theorem isDigit_bounds (c : Char) (h : c.isDigit = true) : 48 ≤ c.toNat ∧ c.toNat ≤ 57 := by
  simp only [Char.isDigit, Bool.and_eq_true, decide_eq_true_eq] at h
  exact ⟨h.1, h.2⟩

theorem parseUintLoop_ok (cs : List Char) :
    ∀ n m : Nat, parseUintLoop cs n = .ok m →
      allDigits cs ∧ m = cs.foldl (fun n c => n * 10 + digitVal c) n := by
  induction cs with
  | nil =>
    intro n m h
    simp only [parseUintLoop, Except.ok.injEq] at h
    exact ⟨fun c hc => by simp at hc, h.symm⟩
  | cons c cs ih =>
    intro n m h
    unfold parseUintLoop at h
    split at h
    · rename_i hc
      split at h
      · cases h
      · simp only at h
        split at h
        · cases h
        · rename_i hov
          have hd := isDigit_bounds c hc
          have hn1 : (n * 10 + (c.toNat - 48)) % 2 ^ 64 = n * 10 + (c.toNat - 48) := by
            norm_num at hov ⊢
            omega
          rw [hn1] at h
          obtain ⟨hall, hm⟩ := ih _ _ h
          refine ⟨?_, ?_⟩
          · intro x hx
            rcases List.mem_cons.1 hx with rfl | hx
            · exact hc
            · exact hall x hx
          · rw [hm, List.foldl_cons]; rfl
    · cases h

theorem ParseUint_ok (cs : List Char) (m : Nat) (h : ParseUint cs = .ok m) :
    cs ≠ [] ∧ allDigits cs ∧ m = digitsVal cs := by
  unfold ParseUint at h
  split at h
  · cases h
  · rename_i hne
    obtain ⟨hall, hm⟩ := parseUintLoop_ok cs 0 m h
    exact ⟨fun hnil => hne hnil, hall, hm⟩

/-- A successful `ParseInt` read a base-10 integer text and returns the integer it
denotes, which lies in the range of `int64`. -/
theorem ParseInt_ok_inv (s : String) (n : Int) (h : ParseInt s = .ok n) :
    isBase10Int s.data ∧ n = base10Value s.data ∧ -(2 : Int) ^ 63 ≤ n ∧ n < (2 : Int) ^ 63 := by
  unfold ParseInt at h
  split at h
  · cases h
  · rename_i c cs hdata
    simp only at h
    split at h
    · cases h
    · rename_i un hun
      split at h
      · cases h
      · rename_i hpos
        split at h
        · cases h
        · rename_i hneg
          simp only [Except.ok.injEq] at h
          obtain ⟨hne, hall, hval⟩ := ParseUint_ok _ _ hun
          rw [hdata]
          by_cases hminus : c = '-'
          · subst hminus
            simp only [beq_self_eq_true, or_true, if_true, true_and, not_true_eq_false,
              false_and, not_false_eq_true, not_lt] at hne hall hval hneg hpos h
            refine ⟨?_, ?_, ?_, ?_⟩
            · simp only [isBase10Int, or_true, if_true]
              exact ⟨hne, hall⟩
            · simp only [base10Value, if_true]
              rw [← h, hval]
            · rw [← h]; norm_num at hneg ⊢; omega
            · rw [← h]; norm_num; omega
          · have hbeq : (c == '-') = false := by simpa using hminus
            simp only [hbeq, Bool.false_eq_true, or_false, false_and, not_false_eq_true,
              true_and, if_false, not_le, beq_iff_eq] at hne hall hval hneg hpos h
            by_cases hplus : c = '+'
            · subst hplus
              simp only [if_true] at hne hall hval
              refine ⟨?_, ?_, ?_, ?_⟩
              · simp only [isBase10Int, true_or, if_true]
                exact ⟨hne, hall⟩
              · simp only [base10Value, hminus, if_false, if_true]
                rw [← h, hval]
              · rw [← h]; norm_num; omega
              · rw [← h]; norm_num at hpos ⊢; omega
            · simp only [hplus, if_false] at hne hall hval
              refine ⟨?_, ?_, ?_, ?_⟩
              · simp only [isBase10Int, hplus, hminus, or_self, if_false]
                exact hall
              · simp only [base10Value, hminus, hplus, if_false]
                rw [← h, hval]
              · rw [← h]; norm_num; omega
              · rw [← h]; norm_num at hpos ⊢; omega

/-- The conversion `int(n)` of an `int64` is exact where `int` has at least 64 bits. -/
theorem toInt_of_int64 (bits : Nat) (n : Int) (hbits : 64 ≤ bits)
    (hlo : -(2 : Int) ^ 63 ≤ n) (hhi : n < (2 : Int) ^ 63) : toInt bits n = n := by
  have hB : (2 : Int) ^ 63 ≤ 2 ^ (bits - 1) := by
    exact_mod_cast Nat.pow_le_pow_right (by norm_num : 0 < 2) (by omega : 63 ≤ bits - 1)
  have h2 : (2 : Int) ^ bits = 2 * 2 ^ (bits - 1) := by
    rw [← pow_succ']
    congr 1
    omega
  unfold toInt
  rw [h2]
  generalize (2 : Int) ^ (bits - 1) = B at hB
  norm_num at hlo hhi hB
  rw [Int.emod_eq_of_lt (by omega) (by omega)]
  omega

/-! ## Lemmas on `strconv.ParseFloat` -/

theorem parseRecord_float_error {F : Type} (bits : Nat)
    (ParseFloat : String → Except GoError F) (i0 i1 i2 i3 i4 : String) (e : GoError)
    (h : ParseFloat i2 = .error e) :
    ∃ e1, parseRecord bits ParseFloat [i0, i1, i2, i3, i4] = (none, some e1) := by
  cases hp : ParseInt i0 with
  | error e0 =>
    exact ⟨.wrapError "IDImpianto is not a numeric string: " e0, by simp [parseRecord, hp]⟩
  | ok n =>
    exact ⟨.wrapError "Prezzo is not a float string: " e, by simp [parseRecord, hp, h]⟩

theorem parseRecord_float_ok {F : Type} (bits : Nat)
    (ParseFloat : String → Except GoError F) (i0 i1 i2 i3 i4 : String) (rec : Record F)
    (h : parseRecord bits ParseFloat [i0, i1, i2, i3, i4] = (some rec, none)) :
    ParseFloat i2 = .ok rec.Prezzo := by
  cases hp0 : ParseInt i0 with
  | error e => simp [parseRecord, hp0] at h
  | ok n =>
    cases hp2 : ParseFloat i2 with
    | error e => simp [parseRecord, hp0, hp2] at h
    | ok p =>
      cases hp3 : ParseBool i3 with
      | error e => simp [parseRecord, hp0, hp2, hp3] at h
      | ok b =>
        cases hp4 : timeParse i4 with
        | error e => simp [parseRecord, hp0, hp2, hp3, hp4] at h
        | ok t =>
          simp only [parseRecord, hp0, hp2, hp3, hp4, Prod.mk.injEq, Option.some.injEq,
            and_true] at h
          rw [← h]

theorem isAlpha_facts (c : Char) (h : c.isAlpha = true) :
    c ≠ '+' ∧ c ≠ '-' ∧ c ≠ '_' ∧ c ≠ '.' ∧ c ≠ '0' ∧ c.isDigit = false := by
  refine ⟨?_, ?_, ?_, ?_, ?_, ?_⟩
  · rintro rfl; exact absurd h (by decide)
  · rintro rfl; exact absurd h (by decide)
  · rintro rfl; exact absurd h (by decide)
  · rintro rfl; exact absurd h (by decide)
  · rintro rfl; exact absurd h (by decide)
  · cases hd : c.isDigit with
    | false => rfl
    | true =>
      exfalso
      have hb := isDigit_bounds c hd
      simp only [Char.isAlpha, Char.isUpper, Char.isLower, Bool.or_eq_true, Bool.and_eq_true,
        decide_eq_true_eq] at h
      rcases h with ⟨h1, _⟩ | ⟨h1, _⟩
      · have h65 : 65 ≤ c.toNat := h1
        omega
      · have h97 : 97 ≤ c.toNat := h1
        omega

/-- A text that starts with a letter fails the syntax check of `readFloat`. -/
theorem readFloat_letter (c : Char) (t : List Char) (h : c.isAlpha = true) :
    readFloat (c :: t) = none := by
  obtain ⟨h1, h2, h3, h4, h5, h6⟩ := isAlpha_facts c h
  have hhex : (match c :: t with
      | c0 :: c1 :: _ :: _ => decide (c0 = '0' ∧ (c1 = 'x' ∨ c1 = 'X'))
      | _ => false) = false := by
    split
    · rename_i c0 c1 c2 r heq
      simp only [List.cons.injEq] at heq
      rw [← heq.1]
      simp [h5]
    · rfl
  simp only [readFloat, h1, h2, or_self, if_false, hhex, Bool.false_eq_true, readMantissa,
    h3, h4, h6, false_and]

theorem commonPrefixLen_eq_length (s p : List Char)
    (h : commonPrefixLenIgnoreCase s p = s.length) :
    s.map Char.toLower = p.take s.length := by
  induction s generalizing p with
  | nil => rfl
  | cons c s ih =>
    cases p with
    | nil => simp [commonPrefixLenIgnoreCase] at h
    | cons q p =>
      unfold commonPrefixLenIgnoreCase at h
      split at h
      · rename_i hc
        have hlen : commonPrefixLenIgnoreCase s p = s.length := by
          simp only [List.length_cons] at h; omega
        simp [hc, ih p hlen]
      · simp at h

theorem commonPrefixLen_le (s p : List Char) :
    commonPrefixLenIgnoreCase s p ≤ s.length := by
  induction s generalizing p with
  | nil => simp [commonPrefixLenIgnoreCase]
  | cons c s ih =>
    cases p with
    | nil => simp [commonPrefixLenIgnoreCase]
    | cons q p =>
      unfold commonPrefixLenIgnoreCase
      split
      · have := ih p; simp only [List.length_cons]; omega
      · simp

/-- The whole of a text that starts with a letter is a special name only if the text is
`inf`, `infinity` or `nan`, letter case ignored. -/
theorem special_letter {F : Type} (c : Char) (t : List Char) (h : c.isAlpha = true)
    (v : Float64 F) (hs : special (c :: t) = some (v, (c :: t).length)) :
    (c :: t).map Char.toLower = "inf".data ∨ (c :: t).map Char.toLower = "infinity".data ∨
      (c :: t).map Char.toLower = "nan".data := by
  obtain ⟨h1, h2, -, -, -, -⟩ := isAlpha_facts c h
  have hle := commonPrefixLen_le (c :: t) "infinity".data
  by_cases hi : c = 'i' ∨ c = 'I'
  · simp only [special, h1, h2, or_self, if_false, hi, if_true] at hs
    by_cases hclip : 3 < commonPrefixLenIgnoreCase (c :: t) "infinity".data ∧
        commonPrefixLenIgnoreCase (c :: t) "infinity".data < 8
    · exfalso
      simp only [hclip, and_self, if_true, true_or, Option.some.injEq, Prod.mk.injEq] at hs
      rw [← hs.2] at hle
      omega
    · simp only [hclip, if_false] at hs
      by_cases h38 : commonPrefixLenIgnoreCase (c :: t) "infinity".data = 3 ∨
          commonPrefixLenIgnoreCase (c :: t) "infinity".data = 8
      · simp only [h38, if_true, Option.some.injEq, Prod.mk.injEq] at hs
        have hpre := commonPrefixLen_eq_length (c :: t) "infinity".data hs.2
        rw [hpre, ← hs.2]
        rcases h38 with h3 | h8
        · left; rw [h3]; rfl
        · right; left; rw [h8]; rfl
      · simp only [h38, if_false] at hs
        cases hs
  · by_cases hn : c = 'n' ∨ c = 'N'
    · simp only [special, h1, h2, or_self, if_false, hi, hn, if_true] at hs
      by_cases h3 : commonPrefixLenIgnoreCase (c :: t) "nan".data = 3
      · simp only [h3, if_true, Option.some.injEq, Prod.mk.injEq] at hs
        have hpre := commonPrefixLen_eq_length (c :: t) "nan".data (by rw [h3]; exact hs.2)
        right; right
        rw [hpre, ← hs.2]; rfl
      · simp only [h3, if_false] at hs
        cases hs
    · simp only [special, h1, h2, or_self, if_false, hi, hn] at hs
      cases hs

/-! ## C1 -/

/-- C1: for every sequence of price rows that each have exactly 5 fields and each convert,
the row scan of `GetRecords` returns no error and as many records as rows; the records are,
in row order, the results of `parseRecord` on the rows, and the record of each row carries
the row's second field unchanged as `Carburante`. -/
theorem C1_scan_wellformed_rows {F : Type} (bits : Nat)
    (ParseFloat : String → Except GoError F) (rows : List (List String)) (heap : Nat)
    (h : ∀ r ∈ rows, r.length = 5 ∧ fieldsConvert ParseFloat r) :
    (GetRecordsScan bits ParseFloat (rows.map Line.fields) heap).2 = none ∧
    (GetRecordsScan bits ParseFloat (rows.map Line.fields) heap).1.length = rows.length ∧
    (GetRecordsScan bits ParseFloat (rows.map Line.fields) heap).1 =
      rows.map (fun r => (parseRecord bits ParseFloat r).1) ∧
    ∀ (i : Nat) (hi : i < rows.length), ∃ rec : Record F,
      (GetRecordsScan bits ParseFloat (rows.map Line.fields) heap).1[i]? = some (some rec) ∧
      parseRecord bits ParseFloat rows[i] = (some rec, none) ∧
      rows[i][1]? = some rec.Carburante := by
  have hok : ∀ r ∈ rows, r.length = 5 ∧ (parseRecord bits ParseFloat r).2 = none := by
    intro r hr
    obtain ⟨rec, hrec, _⟩ := parseRecord_of_convert bits ParseFloat r (h r hr).1 (h r hr).2
    exact ⟨(h r hr).1, by rw [hrec]⟩
  have hscan := recordsLoop_fields_ok bits ParseFloat rows hok 0 heap []
  simp only [List.nil_append] at hscan
  unfold GetRecordsScan
  rw [hscan]
  refine ⟨rfl, by simp, rfl, ?_⟩
  intro i hi
  have hmem : rows[i] ∈ rows := List.getElem_mem _
  obtain ⟨rec, hrec, hcarb⟩ :=
    parseRecord_of_convert bits ParseFloat rows[i] (h _ hmem).1 (h _ hmem).2
  refine ⟨rec, ?_, hrec, hcarb⟩
  simp [hi, hrec]

/-- C1 at the two example rows of the specification (the price is kept as its text). -/
theorem C1_scan_wellformed_rows_witness :
    (GetRecordsScan 64 (fun s => (Except.ok s : Except GoError String))
      ([["1", "Benzina", "1.739", "1", "1/1/2024 08:00:00"],
        ["1", "Gasolio", "1.650", "0", "1/1/2024 08:05:00"]].map Line.fields) 0).1.length = 2 :=
  (C1_scan_wellformed_rows 64 (fun s => (Except.ok s : Except GoError String))
    [["1", "Benzina", "1.739", "1", "1/1/2024 08:00:00"],
      ["1", "Gasolio", "1.650", "0", "1/1/2024 08:05:00"]] 0
    (by
      intro r hr
      simp only [List.mem_cons, List.mem_singleton, List.not_mem_nil, or_false] at hr
      rcases hr with rfl | rfl
      · exact ⟨rfl, ⟨1, by decide⟩, ⟨"1.739", rfl⟩, ⟨true, by decide⟩,
          ⟨⟨2024, 1, 1, 8, 0, 0, 0, 0⟩, by decide⟩⟩
      · exact ⟨rfl, ⟨1, by decide⟩, ⟨"1.650", rfl⟩, ⟨false, by decide⟩,
          ⟨⟨2024, 1, 1, 8, 5, 0, 0, 0⟩, by decide⟩⟩)).2.1

/-! ## C2 -/

/-- C2: a price feed that contains a row whose field count is not 5 makes the row scan of
`GetRecords` return an error and a nil slice, whatever rows precede or follow; and
`parseRecord` returns an error and no record for every field list whose length is not 5. -/
theorem C2_wrong_field_count_fails {F : Type} (bits : Nat)
    (ParseFloat : String → Except GoError F) :
    (∀ (lines : List Line) (heap : Nat),
      (∃ fs, Line.fields fs ∈ lines ∧ fs.length ≠ 5) →
        ∃ e, GetRecordsScan bits ParseFloat lines heap = ([], some e)) ∧
    (∀ items : List String, items.length ≠ 5 →
        ∃ e, parseRecord bits ParseFloat items = (none, some e)) := by
  constructor
  · rintro lines heap ⟨fs, hmem, hlen⟩
    exact recordsLoop_bad_row bits ParseFloat lines ⟨fs, hmem, Or.inl hlen⟩ 0 heap []
  · intro items hlen
    exact ⟨_, parseRecord_length_ne bits ParseFloat items hlen⟩

/-- C2 at a feed whose second row has four fields, between two well-formed rows. -/
theorem C2_wrong_field_count_fails_witness :
    (∃ e, GetRecordsScan 64 (fun s => (Except.ok s : Except GoError String))
      [.fields ["1", "Benzina", "1.739", "1", "1/1/2024 08:00:00"],
        .fields ["1", "Gasolio", "1.650", "0"],
        .fields ["2", "Benzina", "1.800", "1", "1/1/2024 08:00:00"]] 0 = ([], some e)) ∧
    (∃ e, parseRecord 64 (fun s => (Except.ok s : Except GoError String))
      ["1", "Gasolio", "1.650", "0"] = (none, some e)) :=
  ⟨(C2_wrong_field_count_fails 64 (fun s => (Except.ok s : Except GoError String))).1 _ 0
      ⟨["1", "Gasolio", "1.650", "0"], by simp, by decide⟩,
    (C2_wrong_field_count_fails 64 (fun s => (Except.ok s : Except GoError String))).2 _
      (by decide)⟩

/-! ## C3 -/

/-- C3 (defect in the code): a row whose field count is not 10 is not skipped. The guard
`errors.Is(err, &csv.ParseError{})` is false for every error the reader returns, so the
`continue` is never taken, no "Skipping" line is ever logged, and the row is processed
like any other: an 11-field row with a numeric first field puts an entry in the map, a
3-field row with a numeric first field panics on `items[3]` before the next row is read,
and a 2-field row with a non-numeric first field fails the whole call. -/
theorem C3_wrong_field_count_not_skipped :
    (∀ (n numLine heap : Nat) (line : Line),
      skipsRow (csvRead n numLine heap line).2.1 (csvRead n numLine heap line).2.2 = false) ∧
    (∀ (bits : Nat) (lines : List Line) (heap : Nat),
      LogEntry.skipping ∉ (GetStationsScan bits lines heap).2) ∧
    GetStationsScan 64
      [.fields ["7", "g", "b", "Stradale", "n", "i", "c", "p", "45.1", "9.1", "extra"]] 0 =
      (.returned (some [(7, ⟨7, "g", "b", "Stradale", "n", "i", "c", "p", "45.1", "9.1"⟩)])
        none, []) ∧
    GetStationsScan 64
      [.fields ["7", "g", "b"],
        .fields ["8", "g", "b", "Stradale", "n", "i", "c", "p", "45.1", "9.1"]] 0 =
      (.panicked ⟨3, 3⟩, []) ∧
    GetStationsScan 64
      [.fields ["n/a", "g"],
        .fields ["8", "g", "b", "Stradale", "n", "i", "c", "p", "45.1", "9.1"]] 0 =
      (.returned none (some (.wrapError "IDImpianto is not a numeric string: "
        (.NumError "ParseInt" "n/a" .ErrSyntax))), []) :=
  ⟨skipsRow_csvRead,
    fun bits lines heap => stationsLoop_never_skips bits lines 0 heap [] [] (by simp),
    by decide, by decide, by decide⟩

/-! ## C4 -/

/-- C4: for every sequence of 10-field station rows whose first field is numeric, the scan
of `GetStations` returns a map and no error; the map has an entry exactly for the
identifiers that occur in the input; and for each such identifier `k` it has exactly one
entry, whose nine string fields are columns 2 to 10, verbatim, of the last row whose
identifier is `k`. -/
theorem C4_last_row_wins (bits : Nat) (rows : List (List String)) (heap : Nat)
    (h : ∀ r ∈ rows, r.length = 10 ∧ (rowID bits r).isSome) :
    ∃ (m : StationMap) (log : List LogEntry),
      GetStationsScan bits (rows.map Line.fields) heap = (.returned (some m) none, log) ∧
      (∀ k, (m.get k).isSome ↔ ∃ r ∈ rows, rowID bits r = some k) ∧
      ∀ k r, (rows.filter (fun r => decide (rowID bits r = some k))).getLast? = some r →
        (m.filter (fun e => decide (e.1 = k))).length = 1 ∧
        ∃ st, m.get k = some st ∧ st.ID = k ∧ st.columns = r.tail := by
  obtain ⟨log, hscan⟩ := stationsLoop_wellformed bits rows h 0 heap [] []
  refine ⟨rows.foldl (storeRow bits) [], log, hscan, ?_, ?_⟩
  · intro k
    rw [foldl_storeRow_get bits rows k []]
    cases hl : (rows.filter (fun r => decide (rowID bits r = some k))).getLast? with
    | none =>
      have hnil := List.getLast?_eq_none_iff.1 hl
      simp only [StationMap.get, List.lookup, Option.isSome_none, Bool.false_eq_true, false_iff]
      rintro ⟨r, hr, hk⟩
      have : r ∈ rows.filter (fun r => decide (rowID bits r = some k)) :=
        List.mem_filter.2 ⟨hr, by simpa using hk⟩
      rw [hnil] at this
      simp at this
    | some r =>
      have hmem := List.mem_of_getLast?_eq_some hl
      have := List.mem_filter.1 hmem
      simp only [Option.isSome_some, true_iff]
      exact ⟨r, this.1, by simpa using this.2⟩
  · intro k r hl
    have hget := foldl_storeRow_get bits rows k []
    rw [hl] at hget
    have hmem := List.mem_filter.1 (List.mem_of_getLast?_eq_some hl)
    have hnd := foldl_storeRow_keys_nodup bits rows [] (by simp [StationMap.keys])
    have hk : k ∈ (rows.foldl (storeRow bits) []).keys := by
      rw [← StationMap.get_isSome_iff, hget]; rfl
    refine ⟨StationMap.one_entry _ k hnd hk, rowStation k r, hget, ?_⟩
    exact rowStation_columns k r (h r hmem.1).1

/-- C4 at three rows, two of which share the identifier 100. -/
theorem C4_last_row_wins_witness :
    ∃ (m : StationMap) (log : List LogEntry),
      GetStationsScan 64 ([["100", "g1", "b1", "Stradale", "n1", "i1", "c1", "p1", "45.1", "9.1"],
        ["7", "g2", "b2", "Stradale", "n2", "i2", "c2", "p2", "45.2", "9.2"],
        ["100", "g3", "b3", "Autostradale", "n3", "i3", "c3", "p3", "45.3", "9.3"]].map
          Line.fields) 0 = (.returned (some m) none, log) ∧
      (m.filter (fun e => decide (e.1 = 100))).length = 1 ∧
      ∃ st, m.get 100 = some st ∧ st.ID = 100 ∧
        st.columns = ["g3", "b3", "Autostradale", "n3", "i3", "c3", "p3", "45.3", "9.3"] := by
  obtain ⟨m, log, hscan, _, hlast⟩ := C4_last_row_wins 64
    [["100", "g1", "b1", "Stradale", "n1", "i1", "c1", "p1", "45.1", "9.1"],
      ["7", "g2", "b2", "Stradale", "n2", "i2", "c2", "p2", "45.2", "9.2"],
      ["100", "g3", "b3", "Autostradale", "n3", "i3", "c3", "p3", "45.3", "9.3"]] 0
    (by decide)
  exact ⟨m, log, hscan, hlast 100
    ["100", "g3", "b3", "Autostradale", "n3", "i3", "c3", "p3", "45.3", "9.3"] (by decide)⟩

/-! ## C5 -/

/-- C5 (defect in the code, the one of C3): a 10-field row with a non-numeric first field
makes the scan return an error and a nil map when only well-formed rows precede it,
whatever follows; but when a 3-field row with a numeric first field precedes it the scan
panics on that row, which is not skipped, and no error is returned. -/
theorem C5_bad_id_after_short_row_panics :
    (∀ (bits : Nat) (rows : List (List String)) (bad : List String) (rest : List Line)
      (heap : Nat),
      (∀ r ∈ rows, r.length = 10 ∧ (rowID bits r).isSome) →
      bad.length = 10 → rowID bits bad = none →
      ∃ e log, GetStationsScan bits (rows.map Line.fields ++ .fields bad :: rest) heap =
        (.returned none (some e), log)) ∧
    GetStationsScan 64
      [.fields ["7", "g", "b"],
        .fields ["n/a", "g", "b", "Stradale", "n", "i", "c", "p", "45.1", "9.1"]] 0 =
      (.panicked ⟨3, 3⟩, []) := by
  refine ⟨?_, by decide⟩
  intro bits rows bad rest heap h h10 hbad
  have herr : ∃ e, ParseInt (bad.getD 0 "") = .error e := by
    match bad, h10 with
    | [a0, a1, a2, a3, a4, a5, a6, a7, a8, a9], _ =>
      simp only [List.getD_cons_zero]
      cases hp : ParseInt a0 with
      | error e => exact ⟨e, rfl⟩
      | ok n => simp [rowID, hp] at hbad
  obtain ⟨e, he⟩ := herr
  obtain ⟨log, hl⟩ :=
    stationsLoop_bad_id_after_wellformed bits rows bad rest e h h10 he 0 heap [] []
  exact ⟨_, log, hl⟩

/-! ## C6 -/

/-- C6: `GetRecords` is all-or-nothing. If `parseRecord` fails on a row of the feed, the row
scan returns an error with a nil slice; whenever the scan returns an error its slice is nil;
and whenever `parseRecord` returns an error it returns a nil record. -/
theorem C6_all_or_nothing {F : Type} (bits : Nat) (ParseFloat : String → Except GoError F) :
    (∀ (lines : List Line) (heap : Nat),
      (∃ fs, Line.fields fs ∈ lines ∧ (parseRecord bits ParseFloat fs).2 ≠ none) →
        ∃ e, GetRecordsScan bits ParseFloat lines heap = ([], some e)) ∧
    (∀ (lines : List Line) (heap : Nat),
      (GetRecordsScan bits ParseFloat lines heap).2 ≠ none →
        (GetRecordsScan bits ParseFloat lines heap).1 = []) ∧
    (∀ items : List String, (parseRecord bits ParseFloat items).2 ≠ none →
        (parseRecord bits ParseFloat items).1 = none) := by
  refine ⟨?_, ?_, ?_⟩
  · rintro lines heap ⟨fs, hmem, hbad⟩
    exact recordsLoop_bad_row bits ParseFloat lines ⟨fs, hmem, Or.inr hbad⟩ 0 heap []
  · intro lines heap h
    exact recordsLoop_error_nil bits ParseFloat lines 0 heap [] h
  · intro items h
    rcases parseRecord_total bits ParseFloat items with ⟨r, hr⟩ | ⟨e, he⟩
    · rw [hr] at h; exact absurd rfl h
    · rw [he]

/-- C6 at a feed whose second row has a self-service flag that does not convert. -/
theorem C6_all_or_nothing_witness :
    (∃ e, GetRecordsScan 64 (fun s => (Except.ok s : Except GoError String))
      [.fields ["1", "Benzina", "1.739", "1", "1/1/2024 08:00:00"],
        .fields ["1", "Gasolio", "1.650", "si", "1/1/2024 08:05:00"]] 0 = ([], some e)) ∧
    (parseRecord 64 (fun s => (Except.ok s : Except GoError String))
      ["1", "Gasolio", "1.650", "si", "1/1/2024 08:05:00"]).1 = none :=
  ⟨(C6_all_or_nothing 64 (fun s => (Except.ok s : Except GoError String))).1 _ 0
      ⟨["1", "Gasolio", "1.650", "si", "1/1/2024 08:05:00"], by simp, by decide⟩,
    (C6_all_or_nothing 64 (fun s => (Except.ok s : Except GoError String))).2.2 _
      (by decide)⟩

/-! ## C7 -/

/-- C7 (defect in the code, the one of C3): on a feed made only of 10-field rows with
numeric identifiers the returned map has one entry per distinct identifier; but on a feed
of one 11-field row with identifier 7 and one 10-field row with identifier 8 the scan
succeeds with a map of size 2, although the feed has a single 10-field row: the 11-field
row is not skipped and adds an entry. -/
theorem C7_size_counts_wrong_count_row :
    (∀ (bits : Nat) (rows : List (List String)) (heap : Nat),
      (∀ r ∈ rows, r.length = 10 ∧ (rowID bits r).isSome) →
      ∃ m log, GetStationsScan bits (rows.map Line.fields) heap =
          (.returned (some m) none, log) ∧
        m.len = ((rows.filterMap (rowID bits)).dedup).length) ∧
    GetStationsScan 64
      [.fields ["7", "g", "b", "Stradale", "n", "i", "c", "p", "45.1", "9.1", "extra"],
        .fields ["8", "g", "b", "Stradale", "n", "i", "c", "p", "45.1", "9.1"]] 0 =
      (.returned (some [(8, ⟨8, "g", "b", "Stradale", "n", "i", "c", "p", "45.1", "9.1"⟩),
        (7, ⟨7, "g", "b", "Stradale", "n", "i", "c", "p", "45.1", "9.1"⟩)]) none, []) ∧
    StationMap.len [(8, ⟨8, "g", "b", "Stradale", "n", "i", "c", "p", "45.1", "9.1"⟩),
        (7, ⟨7, "g", "b", "Stradale", "n", "i", "c", "p", "45.1", "9.1"⟩)] = 2 ∧
    ([["7", "g", "b", "Stradale", "n", "i", "c", "p", "45.1", "9.1", "extra"],
        ["8", "g", "b", "Stradale", "n", "i", "c", "p", "45.1", "9.1"]].filter
          (fun r => decide (r.length = 10))).length = 1 := by
  refine ⟨?_, by decide, by decide, by decide⟩
  intro bits rows heap h
  obtain ⟨log, hscan⟩ := stationsLoop_wellformed bits rows h 0 heap [] []
  exact ⟨_, log, hscan, foldl_storeRow_len bits rows⟩

/-! ## C8 -/

/-- C8 (defect in the code): a read error that is neither end-of-stream nor a wrong field
count is not returned by `GetStations`; the loop goes on to `items[0]` of the partial row.
No error that the scan returns has a stream error in its `Unwrap` chain. When the stream
breaks after `7;g` the scan panics; when it breaks at the start of a line the call returns
the `ParseInt` error of the empty field. `GetRecords` returns the wrapped stream error in
the same situation. -/
theorem C8_read_error_not_propagated :
    (∀ (bits : Nat) (lines : List Line) (heap : Nat) (v : Option StationMap) (e : GoError)
      (log : List LogEntry) (msg : String),
      GetStationsScan bits lines heap = (.returned v (some e), log) →
        GoError.streamError msg ∉ e.chain) ∧
    GetStationsScan 64 [.failed ["7", "g"] (.stream "unexpected EOF")] 0 =
      (.panicked ⟨2, 2⟩, []) ∧
    GetStationsScan 64 [.failed [""] (.stream "unexpected EOF")] 0 =
      (.returned none (some (.wrapError "IDImpianto is not a numeric string: "
        (.NumError "ParseInt" "" .ErrSyntax))), []) ∧
    GetRecordsScan 64 (fun s => (Except.ok s : Except GoError String))
      [.failed ["7", "Benzina"] (.stream "unexpected EOF")] 0 =
      ([], some (.wrapError "failed to read CSV record: "
        (.streamError "unexpected EOF"))) ∧
    GoError.streamError "unexpected EOF" ∈
      (GoError.wrapError "failed to read CSV record: "
        (.streamError "unexpected EOF")).chain := by
  refine ⟨?_, by decide, by decide, by decide, by decide⟩
  intro bits lines heap v e log msg h
  obtain ⟨_, s, hs | hs⟩ := stationsLoop_error_shape bits lines 0 heap [] [] log v e h
  · rw [hs]; simp [GoError.chain]
  · rw [hs]; simp [GoError.chain]

/-! ## C9 -/

/-- C9 (defect in the code): the header skip discards exactly the first two lines when each
of them ends within the reader's buffer, but not whatever their length. With the 4096-byte
buffer of `bufio.NewReader`, a first line of 5000 bytes is consumed by the two `ReadLine`
calls alone (the first returns 4096 bytes with `isPrefix` set, the second the remaining 904
bytes and the terminator), so the whole second header line is left in the data handed to
the CSV reader. -/
theorem C9_long_header_line_not_skipped :
    (∀ (size : Nat) (l1 l2 data : List UInt8), (10 : UInt8) ∉ l1 → (10 : UInt8) ∉ l2 →
      l1.length < size → l2.length < size →
      skipHeader size (l1 ++ 10 :: (l2 ++ 10 :: data)) = .ok data) ∧
    (∀ header2 data : List UInt8,
      skipHeader defaultBufSize
        (List.replicate 5000 120 ++ 10 :: (header2 ++ 10 :: data)) =
        .ok (header2 ++ 10 :: data)) := by
  refine ⟨skipHeader_short_lines, ?_⟩
  intro header2 data
  have hsplit : List.replicate 5000 (120 : UInt8) =
      List.replicate 4096 120 ++ List.replicate 904 120 := by
    rw [← List.replicate_add]
  have hno : ∀ n, (10 : UInt8) ∉ List.replicate n (120 : UInt8) := by
    intro n h
    exact absurd (List.eq_of_mem_replicate h) (by decide)
  have hr1 : ReadLine defaultBufSize
      (List.replicate 4096 120 ++ (List.replicate 904 120 ++ 10 :: (header2 ++ 10 :: data))) =
      (List.replicate 4096 120, true, none,
        List.replicate 904 120 ++ 10 :: (header2 ++ 10 :: data)) :=
    ReadLine_long defaultBufSize _ _ (hno 4096) (by rw [List.length_replicate]; rfl)
      (by rw [List.getLast?_replicate]; decide)
  obtain ⟨line2, hr2⟩ := ReadLine_short defaultBufSize (List.replicate 904 120)
    (header2 ++ 10 :: data) (hno 904) (by rw [List.length_replicate]; decide)
  unfold skipHeader
  rw [hsplit, List.append_assoc, hr1]
  simp only [hr2]

/-! ## C10 -/

/-- C10 as stated fails: `parseRecord` accepts the row whose timestamp
`01/01/2024 08:00:00` has a zero-padded day and month, although that text is not of the
form `D/M/YYYY HH:MM:SS` with day and month written without a leading zero. -/
theorem C10_zero_padded_accepted :
    parseRecord 64 (fun s => (Except.ok s : Except GoError String))
        ["1", "Benzina", "1.739", "1", "01/01/2024 08:00:00"] =
      (some ⟨1, "Benzina", "1.739", true, ⟨2024, 1, 1, 8, 0, 0, 0, 0⟩⟩, none) ∧
    ¬ ∃ t : TimeText, t.shape ∧ t.strict ∧ "01/01/2024 08:00:00".data = t.render := by
  refine ⟨by decide, ?_⟩
  rintro ⟨t, hshape, hstrict, hs⟩
  obtain ⟨d, r, hd⟩ := List.exists_cons_of_ne_nil (ne_nil_of_length_one_or_two _ hshape.1.2)
  have hhead := congrArg List.head? hs
  rw [TimeText.render, hd] at hhead
  simp only [List.cons_append, List.head?_cons, Option.some.injEq] at hhead
  apply hstrict.1
  rw [hd, List.head?_cons, ← hhead]

/-- C10, amended: for every 5-field row whose other fields convert, `parseRecord` succeeds
exactly when field 5 has the shape that `time.Parse` reads with the layout
`2/1/2006 15:04:05` (day, month and hour of one or two digits, so a leading zero is
accepted; a four-digit year; one or more spaces; two-digit minute and second; optionally a
period or comma and a fractional second) and denotes a valid calendar date and time. Then
`DataComunicazione` is that day, month, year, hour, minute and second (with the fraction as
nanoseconds) at offset 0; for every other field 5 `parseRecord` fails. -/
theorem C10_timestamp_accepted_iff {F : Type} (bits : Nat)
    (ParseFloat : String → Except GoError F) (i0 i1 i2 i3 i4 : String)
    (n : Int) (p : F) (b : Bool)
    (h0 : ParseInt i0 = .ok n) (h2 : ParseFloat i2 = .ok p) (h3 : ParseBool i3 = .ok b) :
    (∀ t : TimeText, t.shape → t.valid → i4.data = t.render →
      ∃ rec, parseRecord bits ParseFloat [i0, i1, i2, i3, i4] = (some rec, none) ∧
        rec.DataComunicazione = t.time) ∧
    ((¬ ∃ t : TimeText, t.shape ∧ t.valid ∧ i4.data = t.render) →
      ∃ e, parseRecord bits ParseFloat [i0, i1, i2, i3, i4] = (none, some e)) := by
  constructor
  · intro t hshape hvalid hs
    have ht := timeParse_of_text i4 t hshape hvalid hs
    exact ⟨⟨toInt bits n, i1, p, b, t.time⟩, by simp [parseRecord, h0, h2, h3, ht], rfl⟩
  · intro hno
    cases ht : timeParse i4 with
    | ok T =>
      obtain ⟨t, hshape, hvalid, hs, _⟩ := timeParse_inv i4 T ht
      exact absurd ⟨t, hshape, hvalid, hs⟩ hno
    | error e =>
      exact ⟨.wrapError "DataComunicazione is not a time string: " e,
        by simp [parseRecord, h0, h2, h3, ht]⟩

/-- C10, amended, at the zero-padded timestamp `01/01/2024 08:00:00`. -/
theorem C10_timestamp_accepted_iff_witness :
    ∃ rec, parseRecord 64 (fun s => (Except.ok s : Except GoError String))
        ["1", "Benzina", "1.739", "1", "01/01/2024 08:00:00"] = (some rec, none) ∧
      rec.DataComunicazione = ⟨2024, 1, 1, 8, 0, 0, 0, 0⟩ :=
  (C10_timestamp_accepted_iff 64 (fun s => (Except.ok s : Except GoError String))
    "1" "Benzina" "1.739" "1" "01/01/2024 08:00:00" 1 "1.739" true
    (by decide) rfl (by decide)).1
    ⟨['0', '1'], ['0', '1'], ['2', '0', '2', '4'], 1, ['0', '8'], ['0', '0'], ['0', '0'], []⟩
    (by
      refine ⟨⟨?_, Or.inr rfl⟩, ⟨?_, Or.inr rfl⟩, ⟨?_, rfl⟩, Nat.le_refl 1, ⟨?_, Or.inr rfl⟩,
        ⟨?_, rfl⟩, ⟨?_, rfl⟩, Or.inl rfl⟩ <;> (unfold allDigits; decide))
    (by unfold TimeText.valid; decide)
    rfl

/-! ## C11 -/

/-- C11 as stated fails where `int` has 32 bits: the row whose first field is `4294967297`
(2^32 + 1, a base-10 integer that `ParseInt` reads with 64 bits) yields `IDImpianto = 1`,
the `int64`-to-`int` conversion having dropped the high bits. -/
theorem C11_id_truncated_on_32_bits :
    parseRecord 32 (fun s => (Except.ok s : Except GoError String))
        ["4294967297", "Benzina", "1.739", "1", "1/1/2024 08:00:00"] =
      (some ⟨1, "Benzina", "1.739", true, ⟨2024, 1, 1, 8, 0, 0, 0, 0⟩⟩, none) ∧
    base10Value "4294967297".data = 4294967297 := by
  constructor <;> decide

/-- C11, amended: for every 5-field row, `parseRecord` fails if field 1 is not a base-10
integer (optional sign followed by decimal digits only); and whenever `parseRecord`
succeeds, field 1 is such a text and `IDImpianto` is the integer it denotes converted to
`int`: exactly that integer where `int` has at least 64 bits, that integer wrapped to the
width of `int` otherwise. -/
theorem C11_station_id {F : Type} (bits : Nat) (ParseFloat : String → Except GoError F)
    (i0 i1 i2 i3 i4 : String) :
    (¬ isBase10Int i0.data →
      ∃ e, parseRecord bits ParseFloat [i0, i1, i2, i3, i4] = (none, some e)) ∧
    (∀ rec, parseRecord bits ParseFloat [i0, i1, i2, i3, i4] = (some rec, none) →
      isBase10Int i0.data ∧
      rec.IDImpianto = toInt bits (base10Value i0.data) ∧
      (64 ≤ bits → rec.IDImpianto = base10Value i0.data)) := by
  constructor
  · intro hnot
    cases hp : ParseInt i0 with
    | ok n => exact absurd (ParseInt_ok_inv i0 n hp).1 hnot
    | error e =>
      exact ⟨.wrapError "IDImpianto is not a numeric string: " e, by simp [parseRecord, hp]⟩
  · intro rec hrec
    cases hp : ParseInt i0 with
    | error e => simp [parseRecord, hp] at hrec
    | ok n =>
      obtain ⟨hbase, hval, hlo, hhi⟩ := ParseInt_ok_inv i0 n hp
      have hid : rec.IDImpianto = toInt bits n := by
        unfold parseRecord at hrec
        simp only [hp] at hrec
        split at hrec
        · simp at hrec
        · split at hrec
          · simp at hrec
          · split at hrec
            · simp at hrec
            · simp only [Prod.mk.injEq, Option.some.injEq, and_true] at hrec
              rw [← hrec]
      refine ⟨hbase, by rw [hid, hval], fun hbits => ?_⟩
      rw [hid, toInt_of_int64 bits n hbits hlo hhi, hval]

/-- C11, amended, at a row whose identifier is written `+0042`, with a 64-bit `int`. -/
theorem C11_station_id_witness :
    ∃ rec, parseRecord 64 (fun s => (Except.ok s : Except GoError String))
        ["+0042", "Benzina", "1.739", "1", "1/1/2024 08:00:00"] = (some rec, none) ∧
      rec.IDImpianto = base10Value "+0042".data ∧ base10Value "+0042".data = 42 :=
  ⟨⟨42, "Benzina", "1.739", true, ⟨2024, 1, 1, 8, 0, 0, 0, 0⟩⟩, by decide,
    ((C11_station_id 64 (fun s => (Except.ok s : Except GoError String))
      "+0042" "Benzina" "1.739" "1" "1/1/2024 08:00:00").2 _ (by decide)).2.2 (by decide),
    by decide⟩

/-! ## C12 -/

/-- C12: for every 5-field row whose other fields convert, `parseRecord` yields
`SelfService = true` exactly when field 4 is one of `1`, `t`, `T`, `true`, `TRUE`, `True`,
yields `SelfService = false` exactly when field 4 is one of `0`, `f`, `F`, `false`,
`FALSE`, `False`, and fails for every other text of field 4. -/
theorem C12_selfservice_lexicon {F : Type} (bits : Nat)
    (ParseFloat : String → Except GoError F) (i0 i1 i2 i3 i4 : String)
    (n : Int) (p : F) (t : Time)
    (h0 : ParseInt i0 = .ok n) (h2 : ParseFloat i2 = .ok p) (h4 : timeParse i4 = .ok t) :
    ((∃ rec, parseRecord bits ParseFloat [i0, i1, i2, i3, i4] = (some rec, none) ∧
        rec.SelfService = true) ↔ i3 ∈ ["1", "t", "T", "true", "TRUE", "True"]) ∧
    ((∃ rec, parseRecord bits ParseFloat [i0, i1, i2, i3, i4] = (some rec, none) ∧
        rec.SelfService = false) ↔ i3 ∈ ["0", "f", "F", "false", "FALSE", "False"]) ∧
    (i3 ∉ ["1", "t", "T", "true", "TRUE", "True"] →
      i3 ∉ ["0", "f", "F", "false", "FALSE", "False"] →
      ∃ e, parseRecord bits ParseFloat [i0, i1, i2, i3, i4] = (none, some e)) := by
  by_cases ht : i3 ∈ ["1", "t", "T", "true", "TRUE", "True"]
  · have hb : ParseBool i3 = .ok true := by simp only [ParseBool, ht, if_true]
    have hf : i3 ∉ ["0", "f", "F", "false", "FALSE", "False"] := by
      simp only [List.mem_cons, List.mem_singleton, List.not_mem_nil, or_false] at ht ⊢
      rcases ht with rfl | rfl | rfl | rfl | rfl | rfl <;> decide
    have hrec : parseRecord bits ParseFloat [i0, i1, i2, i3, i4] =
        (some ⟨toInt bits n, i1, p, true, t⟩, none) := by
      simp [parseRecord, h0, h2, h4, hb]
    refine ⟨⟨fun _ => ht, fun _ => ⟨_, hrec, rfl⟩⟩, ⟨?_, fun h => absurd h hf⟩,
      fun h => absurd ht h⟩
    rintro ⟨rec, hr, hs⟩
    rw [hrec] at hr
    simp only [Prod.mk.injEq, Option.some.injEq, and_true] at hr
    rw [← hr] at hs
    cases hs
  · by_cases hf : i3 ∈ ["0", "f", "F", "false", "FALSE", "False"]
    · have hb : ParseBool i3 = .ok false := by simp only [ParseBool, ht, hf, if_true, if_false]
      have hrec : parseRecord bits ParseFloat [i0, i1, i2, i3, i4] =
          (some ⟨toInt bits n, i1, p, false, t⟩, none) := by
        simp [parseRecord, h0, h2, h4, hb]
      refine ⟨⟨?_, fun h => absurd h ht⟩, ⟨fun _ => hf, fun _ => ⟨_, hrec, rfl⟩⟩,
        fun _ h => absurd hf h⟩
      rintro ⟨rec, hr, hs⟩
      rw [hrec] at hr
      simp only [Prod.mk.injEq, Option.some.injEq, and_true] at hr
      rw [← hr] at hs
      cases hs
    · have hb : ParseBool i3 = .error (.NumError "ParseBool" i3 .ErrSyntax) := by
        simp only [ParseBool, ht, hf, if_false]
      have hrec : parseRecord bits ParseFloat [i0, i1, i2, i3, i4] =
          (none, some (.wrapError "SelfService is not a bool string: "
            (.NumError "ParseBool" i3 .ErrSyntax))) := by
        simp [parseRecord, h0, h2, h4, hb]
      refine ⟨⟨?_, fun h => absurd h ht⟩, ⟨?_, fun h => absurd h hf⟩, fun _ _ => ⟨_, hrec⟩⟩
      · rintro ⟨rec, hr, _⟩
        rw [hrec] at hr
        simp at hr
      · rintro ⟨rec, hr, _⟩
        rw [hrec] at hr
        simp at hr

/-- C12 at a row whose flag is `TRUE`; the differently cased `tRUE`, the padded ` true`
and the empty flag make the same row fail. -/
theorem C12_selfservice_lexicon_witness :
    (∃ rec, parseRecord 64 (fun s => (Except.ok s : Except GoError String))
        ["1", "Benzina", "1.739", "TRUE", "1/1/2024 08:00:00"] = (some rec, none) ∧
      rec.SelfService = true) ∧
    (∃ e, parseRecord 64 (fun s => (Except.ok s : Except GoError String))
        ["1", "Benzina", "1.739", "tRUE", "1/1/2024 08:00:00"] = (none, some e)) ∧
    (∃ e, parseRecord 64 (fun s => (Except.ok s : Except GoError String))
        ["1", "Benzina", "1.739", " true", "1/1/2024 08:00:00"] = (none, some e)) ∧
    (∃ e, parseRecord 64 (fun s => (Except.ok s : Except GoError String))
        ["1", "Benzina", "1.739", "", "1/1/2024 08:00:00"] = (none, some e)) :=
  ⟨(C12_selfservice_lexicon 64 (fun s => (Except.ok s : Except GoError String))
      "1" "Benzina" "1.739" "TRUE" "1/1/2024 08:00:00" 1 "1.739" ⟨2024, 1, 1, 8, 0, 0, 0, 0⟩
      (by decide) rfl (by decide)).1.2 (by decide),
    (C12_selfservice_lexicon 64 (fun s => (Except.ok s : Except GoError String))
      "1" "Benzina" "1.739" "tRUE" "1/1/2024 08:00:00" 1 "1.739" ⟨2024, 1, 1, 8, 0, 0, 0, 0⟩
      (by decide) rfl (by decide)).2.2 (by decide) (by decide),
    (C12_selfservice_lexicon 64 (fun s => (Except.ok s : Except GoError String))
      "1" "Benzina" "1.739" " true" "1/1/2024 08:00:00" 1 "1.739" ⟨2024, 1, 1, 8, 0, 0, 0, 0⟩
      (by decide) rfl (by decide)).2.2 (by decide) (by decide),
    (C12_selfservice_lexicon 64 (fun s => (Except.ok s : Except GoError String))
      "1" "Benzina" "1.739" "" "1/1/2024 08:00:00" 1 "1.739" ⟨2024, 1, 1, 8, 0, 0, 0, 0⟩
      (by decide) rfl (by decide)).2.2 (by decide) (by decide)⟩

/-! ## C13 -/

/-- C13 as stated fails: `parseRecord` accepts rows whose price field is the alphabetic
text `NaN` or `inf`, and returns records whose `Prezzo` is not a number (NaN) or is
infinite. -/
theorem C13_alphabetic_price_accepted :
    parseRecord 64 (ParseFloat64 (fun s => some s))
        ["1", "Benzina", "NaN", "1", "1/1/2024 08:00:00"] =
      (some ⟨1, "Benzina", .NaN, true, ⟨2024, 1, 1, 8, 0, 0, 0, 0⟩⟩, none) ∧
    parseRecord 64 (ParseFloat64 (fun s => some s))
        ["1", "Benzina", "inf", "1", "1/1/2024 08:00:00"] =
      (some ⟨1, "Benzina", .Inf 1, true, ⟨2024, 1, 1, 8, 0, 0, 0, 0⟩⟩, none) ∧
    "NaN".data.all Char.isAlpha = true ∧ "inf".data.all Char.isAlpha = true := by
  refine ⟨by decide, by decide, by decide, by decide⟩

/-- C13, amended: for every 5-field row, `parseRecord` fails for the comma-decimal
`1,739`, for the empty string, and for every text that starts with a letter other than
the special names `inf`, `infinity` and `nan` (letter case ignored), which
`strconv.ParseFloat` accepts; and every record it returns has as `Prezzo` the value that
`ParseFloat` returns for field 3, which is either the infinity or NaN of a special name,
or the conversion of a text that passes the syntax check of `readFloat` entirely. -/
theorem C13_price_text {F : Type} (bits : Nat) (convert : String → Option F)
    (i0 i1 i3 i4 : String) :
    (∃ e, parseRecord bits (ParseFloat64 convert) [i0, i1, "1,739", i3, i4] =
      (none, some e)) ∧
    (∃ e, parseRecord bits (ParseFloat64 convert) [i0, i1, "", i3, i4] = (none, some e)) ∧
    (∀ (i2 : String) (c : Char) (t : List Char), i2.data = c :: t → c.isAlpha = true →
      i2.data.map Char.toLower ∉ ["inf".data, "infinity".data, "nan".data] →
      ∃ e, parseRecord bits (ParseFloat64 convert) [i0, i1, i2, i3, i4] = (none, some e)) ∧
    (∀ (i2 : String) (rec : Record (Float64 F)),
      parseRecord bits (ParseFloat64 convert) [i0, i1, i2, i3, i4] = (some rec, none) →
      ParseFloat64 convert i2 = .ok rec.Prezzo ∧
      ((special i2.data = some (rec.Prezzo, i2.data.length)) ∨
        (readFloat i2.data = some [] ∧ ∃ x, convert i2 = some x ∧
          rec.Prezzo = .number x))) := by
  refine ⟨?_, ?_, ?_, ?_⟩
  · exact parseRecord_float_error bits _ i0 i1 "1,739" i3 i4
      (.NumError "ParseFloat" "1,739" .ErrSyntax) rfl
  · exact parseRecord_float_error bits _ i0 i1 "" i3 i4
      (.NumError "ParseFloat" "" .ErrSyntax) rfl
  · intro i2 c t hdata halpha hnot
    have herr : ParseFloat64 convert i2 = .error (.NumError "ParseFloat" i2 .ErrSyntax) := by
      unfold ParseFloat64
      cases hsp : (special i2.data : Option (Float64 F × Nat)) with
      | none =>
        simp only [hdata, readFloat_letter c t halpha]
      | some vn =>
        obtain ⟨v, n⟩ := vn
        by_cases hn : n = i2.data.length
        · exfalso
          apply hnot
          rw [hdata] at hsp hn ⊢
          rw [hn] at hsp
          have := special_letter c t halpha v hsp
          simp only [List.mem_cons, List.mem_singleton, List.not_mem_nil, or_false]
          exact this
        · simp only [hn, ne_eq, not_false_eq_true, if_true]
    exact parseRecord_float_error bits _ i0 i1 i2 i3 i4 _ herr
  · intro i2 rec hrec
    have hok := parseRecord_float_ok bits _ i0 i1 i2 i3 i4 rec hrec
    refine ⟨hok, ?_⟩
    unfold ParseFloat64 at hok
    split at hok
    · rename_i v n hsp
      split at hok
      · cases hok
      · rename_i hn
        simp only [Except.ok.injEq] at hok
        left
        rw [hsp, ← hok]
        simp only [ne_eq, not_not] at hn
        rw [hn]
    · split at hok
      · cases hok
      · rename_i rest hrf
        split at hok
        · cases hok
        · rename_i hrest
          simp only [ne_eq, not_not] at hrest
          split at hok
          · cases hok
          · rename_i x hx
            simp only [Except.ok.injEq] at hok
            right
            exact ⟨by rw [hrf, hrest], x, hx, hok.symm⟩

/-- C13, amended, at the alphabetic price `abc` and at the decimal price `1.739`. -/
theorem C13_price_text_witness :
    (∃ e, parseRecord 64 (ParseFloat64 (fun s => some s))
      ["1", "Benzina", "abc", "1", "1/1/2024 08:00:00"] = (none, some e)) ∧
    ParseFloat64 (fun s => some s) "1.739" = .ok (.number "1.739") :=
  ⟨(C13_price_text 64 (fun s => some s) "1" "Benzina" "1" "1/1/2024 08:00:00").2.2.1
      "abc" 'a' ['b', 'c'] rfl (by decide) (by decide),
    ((C13_price_text 64 (fun s => some s) "1" "Benzina" "1" "1/1/2024 08:00:00").2.2.2
      "1.739" ⟨1, "Benzina", .number "1.739", true, ⟨2024, 1, 1, 8, 0, 0, 0, 0⟩⟩
      (by decide)).1⟩

/-! ## C14 -/

/-- C14: with the log as a list of diagnostics, on every sequence of well-formed station
rows the scan of `GetStations` succeeds and logs exactly the duplicate diagnostics of the
specification: one for each row whose identifier is the identifier of an earlier row (and so
is in the map when the row is processed), carrying that row's type field and identifier,
and none for any other row. The diagnostics and the entries of the map together count the
rows, and the entry of an identifier is the station of the last row that has it. -/
theorem C14_duplicate_log (bits : Nat) (rows : List (List String)) (heap : Nat)
    (h : ∀ r ∈ rows, r.length = 10 ∧ (rowID bits r).isSome) :
    ∃ m : StationMap,
      GetStationsScan bits (rows.map Line.fields) heap =
        (.returned (some m) none, duplicateLog bits [] rows) ∧
      (duplicateLog bits [] rows).length + m.len = rows.length ∧
      ∀ k r, (rows.filter (fun r => decide (rowID bits r = some k))).getLast? = some r →
        m.get k = some (rowStation k r) := by
  refine ⟨rows.foldl (storeRow bits) [], ?_, ?_, ?_⟩
  · have hlog := stationsLoop_wellformed_log bits rows h [] 0 heap []
    simpa [GetStationsScan] using hlog
  · have hlen := duplicateLog_length bits rows (fun r hr => (h r hr).2) []
    rw [foldl_storeRow_len]
    simpa using hlen
  · intro k r hl
    have hget := foldl_storeRow_get bits rows k []
    rw [hl] at hget
    exact hget

/-- C14 at the example of the specification: two rows with identifier 100 and different
types give exactly one diagnostic, which carries the second row's type. -/
theorem C14_duplicate_log_witness :
    ∃ m : StationMap,
      GetStationsScan 64 ([["100", "g1", "b1", "Stradale", "n1", "i1", "c1", "p1", "45.1", "9.1"],
        ["100", "g2", "b2", "Autostradale", "n2", "i2", "c2", "p2", "45.2", "9.2"]].map
          Line.fields) 0 = (.returned (some m) none, [.duplicate "Autostradale" 100]) ∧
      m.len = 1 := by
  obtain ⟨m, hscan, hlen, _⟩ := C14_duplicate_log 64
    [["100", "g1", "b1", "Stradale", "n1", "i1", "c1", "p1", "45.1", "9.1"],
      ["100", "g2", "b2", "Autostradale", "n2", "i2", "c2", "p2", "45.2", "9.2"]] 0
    (by decide)
  have hd : duplicateLog 64 []
      [["100", "g1", "b1", "Stradale", "n1", "i1", "c1", "p1", "45.1", "9.1"],
        ["100", "g2", "b2", "Autostradale", "n2", "i2", "c2", "p2", "45.2", "9.2"]] =
      [.duplicate "Autostradale" 100] := by decide
  rw [hd] at hscan hlen
  refine ⟨m, hscan, ?_⟩
  simp only [List.length_cons, List.length_nil] at hlen
  omega

/-! ## C15 -/

/-- C15 (defect in the code, the ones of C3 and C8): the station scan is not safe on every
feed. It does not panic when every line has at least 10 fields; but a line with fewer than
10 fields whose first field is numeric, or with no field at all, makes it panic whatever
follows, because neither a wrong field count nor another read error keeps the loop from
indexing `items`. A 3-field row panics on `items[3]`, a nil row returned with a stream
error panics on `items[0]`. -/
theorem C15_scan_panics :
    (∀ (bits : Nat) (lines : List Line) (heap : Nat),
      (∀ line ∈ lines, 10 ≤ line.items.length) →
      ∃ v e log, GetStationsScan bits lines heap = (.returned v e, log)) ∧
    (∀ (bits : Nat) (line : Line) (rest : List Line) (heap : Nat),
      line.items.length < 10 →
      (line.items = [] ∨ ∃ n, ParseInt (line.items.getD 0 "") = .ok n) →
      ∃ p log, GetStationsScan bits (line :: rest) heap = (.panicked p, log)) ∧
    GetStationsScan 64
      [.fields ["8", "g", "b", "Stradale", "n", "i", "c", "p", "45.1", "9.1"],
        .fields ["7", "g", "b"]] 0 = (.panicked ⟨3, 3⟩, []) ∧
    GetStationsScan 64 [.failed [] (.stream "unexpected EOF")] 0 =
      (.panicked ⟨0, 0⟩, []) := by
  refine ⟨?_, ?_, by decide, by decide⟩
  · intro bits lines heap h
    exact stationsLoop_no_panic bits lines h 0 heap [] []
  · intro bits line rest heap hshort hnum
    rcases stationsLoop_step bits line 0 heap [] [] with
      ⟨_, _, p, l1, hpanic⟩ | ⟨e1, hne, herr, _⟩ | ⟨n, heap1, h10, _, _⟩
    · exact ⟨p, l1, hpanic rest⟩
    · rcases hnum with hnil | ⟨n, hn⟩
      · exact absurd hnil hne
      · rw [hn] at herr; cases herr
    · omega

/-! ## C16 -/

/-- C16: in every map that the station scan returns, each entry stored under a key `k` has
its `ID` field equal to `k`; and the map returned on a feed `pre` is the state of the scan
after the lines of `pre` when more lines follow, so the invariant holds after every step. -/
theorem C16_key_id_invariant (bits : Nat) (pre post : List Line) (heap : Nat)
    (m : StationMap) (log : List LogEntry)
    (h : GetStationsScan bits pre heap = (.returned (some m) none, log)) :
    KeyedByID m ∧ (∀ k st, (k, st) ∈ m → st.ID = k) ∧
      ∃ heap1, GetStationsScan bits (pre ++ post) heap =
        stationsLoop bits post pre.length heap1 m log := by
  have hk : KeyedByID m :=
    stationsLoop_keyed bits pre 0 heap [] m [] log none (fun e he => by simp at he) h
  refine ⟨hk, fun k st hmem => hk (k, st) hmem, ?_⟩
  obtain ⟨heap1, h1⟩ := stationsLoop_prefix bits pre 0 heap [] m [] log h post
  exact ⟨heap1, by rw [GetStationsScan, h1, Nat.zero_add]⟩

/-- C16 at a feed with an 11-field row, a duplicate identifier and a third station. -/
theorem C16_key_id_invariant_witness :
    KeyedByID [(8, ⟨8, "g3", "b", "Stradale", "n", "i", "c", "p", "45.1", "9.1"⟩),
      (7, ⟨7, "g2", "b", "Autostradale", "n", "i", "c", "p", "45.1", "9.1"⟩)] :=
  (C16_key_id_invariant 64
    [.fields ["7", "g1", "b", "Stradale", "n", "i", "c", "p", "45.1", "9.1", "extra"],
      .fields ["7", "g2", "b", "Autostradale", "n", "i", "c", "p", "45.1", "9.1"],
      .fields ["8", "g3", "b", "Stradale", "n", "i", "c", "p", "45.1", "9.1"]] [] 0
    [(8, ⟨8, "g3", "b", "Stradale", "n", "i", "c", "p", "45.1", "9.1"⟩),
      (7, ⟨7, "g2", "b", "Autostradale", "n", "i", "c", "p", "45.1", "9.1"⟩)]
    [.duplicate "Autostradale" 7] (by decide)).1

/-! ## C17 -/

/-- C17: rows of the price feed are parsed independently. For all feeds `a` and `b`, the
row scan of `GetRecords` succeeds on `a ++ b` exactly when it succeeds on `a` and on `b`,
and in that case its records on `a ++ b` are its records on `a` followed by its records
on `b`. -/
theorem C17_scan_append {F : Type} (bits : Nat) (ParseFloat : String → Except GoError F)
    (a b : List Line) (heap : Nat) :
    ((GetRecordsScan bits ParseFloat (a ++ b) heap).2 = none ↔
      (GetRecordsScan bits ParseFloat a heap).2 = none ∧
        (GetRecordsScan bits ParseFloat b heap).2 = none) ∧
    ((GetRecordsScan bits ParseFloat (a ++ b) heap).2 = none →
      (GetRecordsScan bits ParseFloat (a ++ b) heap).1 =
        (GetRecordsScan bits ParseFloat a heap).1 ++
          (GetRecordsScan bits ParseFloat b heap).1) := by
  unfold GetRecordsScan
  rcases recordsLoop_append bits ParseFloat a with hfail | ⟨rs, hrs⟩
  · obtain ⟨e, he⟩ := hfail b 0 heap []
    obtain ⟨e1, he1⟩ := hfail [] 0 heap []
    rw [List.append_nil] at he1
    rw [he, he1]
    simp
  · obtain ⟨n1, h1, hab⟩ := hrs b 0 heap []
    obtain ⟨n2, h2, ha⟩ := hrs [] 0 heap []
    rw [List.append_nil] at ha
    rw [hab, ha]
    simp only [recordsLoop, List.nil_append]
    rcases recordsLoop_uniform bits ParseFloat b with hbfail | ⟨rs1, hrs1⟩
    · obtain ⟨e, he⟩ := hbfail n1 h1 rs
      obtain ⟨e1, he1⟩ := hbfail 0 heap []
      rw [he, he1]
      simp
    · rw [hrs1 n1 h1 rs, hrs1 0 heap []]
      simp

end Carburanti
